import Mathlib

/-!
Vicharak toy compiler: lexer, recursive-descent parser, emitter.

A shallow embedding of `Task 7/testing.c`, the revision with explicit token
kinds (in `Task7`), and of `Task 5-6/parser.c`, the earliest revision (in
`Task56`).

Modelling conventions.
* The input file is the list of its bytes, each written as a character;
  `fgetc` reads the head of the list. The lexers store the result in `char ch`
  (a signed char), so the byte 0xFF (`eofChar`) compares equal to `EOF`: read
  by the outer loop it ends the loop, and `ungetc` does not push it back. A NUL
  byte ends the C string copied into a token's text.
* The fixed buffers `token[MAX_TOKEN_LENGTH]`, `text[MAX_TOKEN_LENGTH]` and
  `tokens[MAX_TOKENS]` are written without any check. `tokenizeFile` gives the
  tokens the loop stores; `tokenizeFileChecked` is the run with the three
  buffers: it is `none` when a write would leave one of them (undefined
  behaviour in C) and the stored tokens otherwise.
* The global array `tokens` is zero-initialised static storage, so an entry at
  or after `tokenCount` and inside the array reads as type `TOKEN_IDENTIFIER`
  (enumerator 0) with the empty text. `tokenAt` reads the token list with that
  default; an index of `MAX_TOKENS` or more is outside the array in C, and the
  statements that depend on reads past the count say which indices they read.
* An `ASTNode*` is either `ASTNode.null` or a `node` with type, value and the
  two child pointers.
* `exit(1)` after a diagnostic is the result `ParseResult.syntaxError`.
* Reading `child->value` through a `NULL` child is undefined behaviour; the
  emitter's result records it as `EmitResult.nullDeref`.
* The loops of the earliest parser take fuel for the tokens left; they are
  proved to return on every input (`Task56.parseExpression_returns`).
* The mutually recursive parser is defined with a fuel argument; the functions
  carrying the source's names supply three units of fuel per remaining token,
  which is proved to be enough (`fuel_enough`), and satisfy the recursion
  equations of the source (`parseFactor_eq`, `parseTerm_eq`, ...).
-/

/-- Token kinds, in the order of the C enumeration (`TOKEN_IDENTIFIER` is 0). -/
inductive TokenType where
  | TOKEN_IDENTIFIER
  | TOKEN_NUMBER
  | TOKEN_OPERATOR
  | TOKEN_PAREN_OPEN
  | TOKEN_PAREN_CLOSE
  | TOKEN_ASSIGN
  | TOKEN_IF
  | TOKEN_EOF
  | TOKEN_UNKNOWN
  deriving DecidableEq, Repr

/-- AST node kinds. -/
inductive ASTNodeType where
  | AST_VAR_DECL
  | AST_ASSIGN
  | AST_ADD
  | AST_SUB
  | AST_MUL
  | AST_DIV
  | AST_IF
  | AST_NUMBER
  deriving DecidableEq, Repr

/-- An `ASTNode*`: the null pointer, or a node with its four fields. -/
inductive ASTNode where
  | null
  | node (type : ASTNodeType) (value : String) (left right : ASTNode)
  deriving DecidableEq, Repr

/-- The C function `createNode`: both children start as `NULL`. -/
def createNode (type : ASTNodeType) (value : String) : ASTNode :=
  .node type value .null .null

/-- Result of the emitter: the lines printed by a run that returned, or the
lines printed before the value of a `NULL` child was read (undefined behaviour
in C, a crash in practice). -/
inductive EmitResult where
  | done (lines : List String)
  | nullDeref (lines : List String)
  deriving DecidableEq, Repr

/-- The read `child->value`; `none` when the child pointer is `NULL`. -/
def ASTNode.value? : ASTNode → Option String
  | .null => none
  | .node _ value _ _ => some value

/-- One call `printf("<op> %s, %s\n", node->left->value, node->right->value)`. -/
def printBinary (op : String) (left right : ASTNode) : EmitResult :=
  match left.value?, right.value? with
  | some l, some r => .done [op ++ " " ++ l ++ ", " ++ r]
  | _, _ => .nullDeref []

/-- Output of a callee placed after the lines already printed. -/
def EmitResult.after (lines : List String) : EmitResult → EmitResult
  | .done more => .done (lines ++ more)
  | .nullDeref more => .nullDeref (lines ++ more)

/-- The mnemonic `generateAssembly` prints for a two-operand node kind. -/
def mnemonic : ASTNodeType → String
  | .AST_ASSIGN => "MOV"
  | .AST_ADD => "ADD"
  | .AST_SUB => "SUB"
  | .AST_MUL => "MUL"
  | .AST_DIV => "DIV"
  | _ => ""

/-- The size `MAX_TOKENS` of the array `tokens`. -/
def MAX_TOKENS : Nat := 100

/-- The size `MAX_TOKEN_LENGTH` of the buffers `token` and `text`. -/
def MAX_TOKEN_LENGTH : Nat := 50

/-- The byte 0xFF. Stored in `char ch`, a signed char, it is -1 and compares
equal to `EOF`. -/
def eofChar : Char := Char.ofNat 255

/-- The NUL byte, which ends a C string. -/
def nulChar : Char := Char.ofNat 0

/-- The C predicate `isspace` in the C locale. -/
def isspace (ch : Char) : Bool :=
  ch = ' ' || (9 ≤ ch.toNat && ch.toNat ≤ 13)

/-- The C predicate `isalpha` in the C locale. -/
def isalpha (ch : Char) : Bool :=
  (65 ≤ ch.toNat && ch.toNat ≤ 90) || (97 ≤ ch.toNat && ch.toNat ≤ 122)

/-- The C predicate `isdigit`. -/
def isdigit (ch : Char) : Bool :=
  48 ≤ ch.toNat && ch.toNat ≤ 57

/-- The C predicate `isalnum`. -/
def isalnum (ch : Char) : Bool :=
  isalpha ch || isdigit ch

/-- The characters the lexer of `Task 7/testing.c` reads and stores in no
token: whitespace and the two braces. -/
def isDiscarded (ch : Char) : Bool :=
  isspace ch || ch == '{' || ch == '}'

/-- The alphabet of the lossless-partition property: letters, digits,
whitespace and the symbols `= + - * / ( ) { }`. -/
abbrev inAlphabet (ch : Char) : Prop :=
  isalpha ch = true ∨ isdigit ch = true ∨ isspace ch = true ∨
    ch ∈ ['=', '+', '-', '*', '/', '(', ')', '{', '}']

namespace Task7

/-- A token of the revision with explicit kinds. -/
structure Token where
  type : TokenType
  text : String
  deriving DecidableEq, Repr

/-- A zero-initialised entry of the static array `tokens`. -/
def zeroToken : Token := ⟨.TOKEN_IDENTIFIER, ""⟩

/-- The read `tokens[i]` for an index inside the array: a stored token below
the token count, the zero entry from there on. At `MAX_TOKENS` and beyond the C
read is outside the array; the value given here for such an index is not the
program's. -/
def tokenAt (tokens : List Token) (i : Nat) : Token :=
  tokens.getD i zeroToken

/-- The read `text[0]` of a token; the terminating NUL for an empty text. -/
def text0 (t : Token) : Char :=
  t.text.data.headD (Char.ofNat 0)

/-- Outcome of a parsing function: the returned pointer with the updated
cursor, the fatal `exit(1)` with its diagnostic, or exhausted fuel. -/
inductive ParseResult where
  | ok (node : ASTNode) (index : Nat)
  | syntaxError (msg : String)
  | outOfFuel
  deriving DecidableEq, Repr

mutual

/-- Body of `parseExpression`, with fuel. -/
def parseExpressionFuel : Nat → List Token → Nat → ParseResult
  | 0, _, _ => .outOfFuel
  | fuel + 1, tokens, index =>
    match parseTermFuel fuel tokens index with
    | .ok left index => parseExpressionLoop fuel tokens left index
    | r => r
  termination_by structural fuel => fuel

/-- The `while` loop of `parseExpression`. -/
def parseExpressionLoop : Nat → List Token → ASTNode → Nat → ParseResult
  | 0, _, _, _ => .outOfFuel
  | fuel + 1, tokens, left, index =>
    if (tokenAt tokens index).type = .TOKEN_OPERATOR ∧
        (text0 (tokenAt tokens index) = '+' ∨ text0 (tokenAt tokens index) = '-') then
      let op := text0 (tokenAt tokens index)
      match parseTermFuel fuel tokens (index + 1) with
      | .ok right index =>
        parseExpressionLoop fuel tokens
          (.node (if op = '+' then .AST_ADD else .AST_SUB) "" left right) index
      | r => r
    else .ok left index
  termination_by structural fuel => fuel

/-- Body of `parseTerm`, with fuel. -/
def parseTermFuel : Nat → List Token → Nat → ParseResult
  | 0, _, _ => .outOfFuel
  | fuel + 1, tokens, index =>
    match parseFactorFuel fuel tokens index with
    | .ok left index => parseTermLoop fuel tokens left index
    | r => r
  termination_by structural fuel => fuel

/-- The `while` loop of `parseTerm`. -/
def parseTermLoop : Nat → List Token → ASTNode → Nat → ParseResult
  | 0, _, _, _ => .outOfFuel
  | fuel + 1, tokens, left, index =>
    if (tokenAt tokens index).type = .TOKEN_OPERATOR ∧
        (text0 (tokenAt tokens index) = '*' ∨ text0 (tokenAt tokens index) = '/') then
      let op := text0 (tokenAt tokens index)
      match parseFactorFuel fuel tokens (index + 1) with
      | .ok right index =>
        parseTermLoop fuel tokens
          (.node (if op = '*' then .AST_MUL else .AST_DIV) "" left right) index
      | r => r
    else .ok left index
  termination_by structural fuel => fuel

/-- Body of `parseFactor`, with fuel. -/
def parseFactorFuel : Nat → List Token → Nat → ParseResult
  | 0, _, _ => .outOfFuel
  | fuel + 1, tokens, index =>
    if (tokenAt tokens index).type = .TOKEN_NUMBER then
      .ok (createNode .AST_NUMBER (tokenAt tokens index).text) (index + 1)
    else if (tokenAt tokens index).type = .TOKEN_IDENTIFIER then
      .ok (createNode .AST_VAR_DECL (tokenAt tokens index).text) (index + 1)
    else if (tokenAt tokens index).type = .TOKEN_PAREN_OPEN then
      match parseExpressionFuel fuel tokens (index + 1) with
      | .ok node index =>
        if (tokenAt tokens index).type ≠ .TOKEN_PAREN_CLOSE then
          .syntaxError "Syntax error: expected ')'"
        else .ok node (index + 1)
      | r => r
    else .syntaxError "Syntax error: unexpected token"
  termination_by structural fuel => fuel

end

/-- The `while` loop of `parseTerm` entered with the accumulated `left`. -/
def parseTermWhile (tokens : List Token) (left : ASTNode) (index : Nat) : ParseResult :=
  parseTermLoop (3 * (tokens.length - index) + 1) tokens left index

/-- The `while` loop of `parseExpression` entered with the accumulated `left`. -/
def parseExpressionWhile (tokens : List Token) (left : ASTNode) (index : Nat) :
    ParseResult :=
  parseExpressionLoop (3 * (tokens.length - index) + 2) tokens left index

/-- The function `parseFactor`: fuel for the tokens left after the cursor. -/
def parseFactor (tokens : List Token) (index : Nat) : ParseResult :=
  parseFactorFuel (3 * (tokens.length - index) + 1) tokens index

/-- The function `parseTerm`. -/
def parseTerm (tokens : List Token) (index : Nat) : ParseResult :=
  parseTermFuel (3 * (tokens.length - index) + 2) tokens index

/-- The function `parseExpression`. -/
def parseExpression (tokens : List Token) (index : Nat) : ParseResult :=
  parseExpressionFuel (3 * (tokens.length - index) + 3) tokens index

/-- The function `parseAssignment`: the node takes the text at the cursor as
its own value, the next token's text becomes the left child, and a right-hand
side is parsed only behind a `TOKEN_ASSIGN`. -/
def parseAssignment (tokens : List Token) (index : Nat) : ParseResult :=
  let value := (tokenAt tokens index).text
  let index := index + 1
  let left := createNode .AST_VAR_DECL (tokenAt tokens index).text
  let index := index + 1
  if (tokenAt tokens index).type = .TOKEN_ASSIGN then
    let index := index + 1
    match parseExpression tokens index with
    | .ok right index => .ok (.node .AST_ASSIGN value left right) index
    | r => r
  else .ok (.node .AST_ASSIGN value left .null) index

/-- The function `parseIfStatement`. -/
def parseIfStatement (tokens : List Token) (index : Nat) : ParseResult :=
  let index := index + 1
  if (tokenAt tokens index).type = .TOKEN_PAREN_OPEN then
    let index := index + 1
    match parseExpression tokens index with
    | .ok condition index =>
      if (tokenAt tokens index).type ≠ .TOKEN_PAREN_CLOSE then
        .syntaxError "Syntax error: expected ')'"
      else
        let index := index + 1
        match parseAssignment tokens index with
        | .ok statement index => .ok (.node .AST_IF "" condition statement) index
        | r => r
    | r => r
  else .ok .null index

/-- The loop condition of `parseTerm`: an operator token starting with `*` or `/`. -/
abbrev isMulOp (t : Token) : Prop :=
  t.type = .TOKEN_OPERATOR ∧ (text0 t = '*' ∨ text0 t = '/')

/-- The loop condition of `parseExpression`: an operator token starting with
`+` or `-`. -/
abbrev isAddOp (t : Token) : Prop :=
  t.type = .TOKEN_OPERATOR ∧ (text0 t = '+' ∨ text0 t = '-')

/-- The tokens the first two branches of `parseFactor` accept. -/
abbrev isFactorToken (t : Token) : Prop :=
  t.type = .TOKEN_NUMBER ∨ t.type = .TOKEN_IDENTIFIER

/-- The leaf the first two branches of `parseFactor` create for a token. -/
def leaf (t : Token) : ASTNode :=
  if t.type = .TOKEN_NUMBER then createNode .AST_NUMBER t.text
  else createNode .AST_VAR_DECL t.text

/-- The operator token the lexer stores for the character `op`. -/
def opToken (op : Char) : Token :=
  ⟨.TOKEN_OPERATOR, String.mk [op]⟩

/-- The node kind the two loops choose for an operator character. -/
def binKind (op : Char) : ASTNodeType :=
  if op = '+' then .AST_ADD
  else if op = '-' then .AST_SUB
  else if op = '*' then .AST_MUL
  else .AST_DIV

/-- The node a loop iteration builds: `createNode(kind, "")` with both
children set. -/
def binNode (op : Char) (left right : ASTNode) : ASTNode :=
  .node (binKind op) "" left right

/-- The tokens `o1 f1 ... on fn` that follow a first factor. -/
def chainTokens : List (Char × Token) → List Token
  | [] => []
  | (op, f) :: rest => opToken op :: f :: chainTokens rest

/-- The left fold `on(...o2(o1(acc, f1), f2)..., fn)`. -/
def foldLeft (acc : ASTNode) : List (Char × Token) → ASTNode
  | [] => acc
  | (op, f) :: rest => foldLeft (binNode op acc (leaf f)) rest

/-- The function `generateAssembly` of `Task 7/testing.c`. -/
def generateAssembly : ASTNode → EmitResult
  | .null => .done []
  | .node type value left right =>
    if type = .AST_ASSIGN then printBinary "MOV" left right
    else if type = .AST_ADD then printBinary "ADD" left right
    else if type = .AST_SUB then printBinary "SUB" left right
    else if type = .AST_MUL then printBinary "MUL" left right
    else if type = .AST_DIV then printBinary "DIV" left right
    else if type = .AST_VAR_DECL then .done ["DECLARE " ++ value]
    else if type = .AST_NUMBER then .done ["PUSH " ++ value]
    else if type = .AST_IF then
      match left.value? with
      | some l => (generateAssembly right).after ["IF " ++ l ++ " == 0 GOTO LABEL"]
      | none => .nullDeref []
    else .done []

/-- The call `ungetc(ch, file)` after an inner `while`, on the input from the
character `ch` that ended the run: at the end of the file there is nothing to
push back, and pushing back a `ch` equal to `EOF` fails, so a byte 0xFF that
ended the run is consumed. -/
def ungetc : List Char → List Char
  | [] => []
  | ch :: file => if ch = eofChar then file else ch :: file

/-- The main loop of `tokenizeFile` over the bytes still to be read. The loop
ends at the end of the file and at a byte that `char ch` cannot tell from `EOF`.
`token` holds the `tokenIndex` characters currently in the local buffer; every
branch that fills the buffer empties it again before the next iteration. An
Unknown token stores `ch` followed by NUL, which is the empty string when `ch`
is NUL itself. Each iteration reads at least one character, so fuel equal to
the number of characters left is enough. -/
def tokenizeLoop : Nat → List Char → List Char → List Token
  | 0, _, _ => []
  | _ + 1, _, [] => []
  | fuel + 1, token, ch :: file =>
    if ch = eofChar then []
    else if isspace ch then
      if token.length > 0 then
        ⟨.TOKEN_UNKNOWN, String.mk token⟩ :: tokenizeLoop fuel [] file
      else tokenizeLoop fuel token file
    else if isalpha ch then
      let token := token ++ ch :: file.takeWhile isalnum
      ⟨.TOKEN_IDENTIFIER, String.mk token⟩ ::
        tokenizeLoop fuel [] (ungetc (file.dropWhile isalnum))
    else if isdigit ch then
      let token := token ++ ch :: file.takeWhile isdigit
      ⟨.TOKEN_NUMBER, String.mk token⟩ ::
        tokenizeLoop fuel [] (ungetc (file.dropWhile isdigit))
    else if ch = '=' then
      ⟨.TOKEN_ASSIGN, String.mk [ch]⟩ :: tokenizeLoop fuel token file
    else if ch = '+' ∨ ch = '-' ∨ ch = '*' ∨ ch = '/' then
      ⟨.TOKEN_OPERATOR, String.mk [ch]⟩ :: tokenizeLoop fuel token file
    else if ch = '(' then
      ⟨.TOKEN_PAREN_OPEN, String.mk [ch]⟩ :: tokenizeLoop fuel token file
    else if ch = ')' then
      ⟨.TOKEN_PAREN_CLOSE, String.mk [ch]⟩ :: tokenizeLoop fuel token file
    else if ch = '{' ∨ ch = '}' then
      tokenizeLoop fuel token file
    else
      ⟨.TOKEN_UNKNOWN, String.mk (if ch = nulChar then [] else [ch])⟩ ::
        tokenizeLoop fuel token file

/-- The function `tokenizeFile` on the bytes of the file: the tokens the loop
stores in `tokens[0 .. tokenCount)`, the buffers taken as large enough. -/
def tokenizeFile (file : List Char) : List Token :=
  tokenizeLoop file.length [] file

/-- No write of the lexer leaves a buffer: a run of `n` characters writes
`token[0 .. n]` and copies `n + 1` bytes into `text`, so every text is shorter
than `MAX_TOKEN_LENGTH`, and the stores `tokens[tokenCount++]` stay inside the
array, so there are at most `MAX_TOKENS` tokens. -/
abbrev withinBuffers (tokens : List Token) : Prop :=
  tokens.length ≤ MAX_TOKENS ∧ ∀ t ∈ tokens, t.text.length < MAX_TOKEN_LENGTH

/-- The run of `tokenizeFile` with its three fixed buffers: `none` when a write
leaves `token`, `text` or `tokens` (undefined behaviour), the stored tokens
otherwise. -/
def tokenizeFileChecked (file : List Char) : Option (List Token) :=
  if withinBuffers (tokenizeFile file) then some (tokenizeFile file) else none

/-- How a run of `main` ends: `return 0`, the `exit(1)` of a syntax error with
its diagnostic, the read through a `NULL` child in the emitter, or exhausted
fuel. -/
inductive Outcome where
  | returned
  | exited (msg : String)
  | crashed
  | outOfFuel
  deriving DecidableEq, Repr

/-- A run of `main`: the lines printed, the number of statement parses
performed (calls of `parseIfStatement` or `parseAssignment`), and how the run
ended. -/
structure Run where
  lines : List String
  parses : Nat
  outcome : Outcome
  deriving DecidableEq, Repr

/-- The loop `while (index < tokenCount)` of `main`: dispatch on the text `if`,
parse one statement, emit it, free it. -/
def mainLoop : Nat → List Token → Nat → Run
  | 0, tokens, index =>
    if index < tokens.length then ⟨[], 0, .outOfFuel⟩ else ⟨[], 0, .returned⟩
  | fuel + 1, tokens, index =>
    if index < tokens.length then
      match (if (tokenAt tokens index).text = "if" then parseIfStatement tokens index
        else parseAssignment tokens index) with
      | .ok ast index =>
        match generateAssembly ast with
        | .done lines =>
          let rest := mainLoop fuel tokens index
          ⟨lines ++ rest.lines, rest.parses + 1, rest.outcome⟩
        | .nullDeref lines => ⟨lines, 1, .crashed⟩
      | .syntaxError msg => ⟨[], 1, .exited msg⟩
      | .outOfFuel => ⟨[], 1, .outOfFuel⟩
    else ⟨[], 0, .returned⟩

/-- The function `main` on the characters of `input.txt`. Every statement parse
advances the cursor, so fuel equal to the token count is enough. -/
def main (file : List Char) : Run :=
  mainLoop (tokenizeFile file).length (tokenizeFile file) 0

/-- The data model's shape rule at every node: binary operators have both
children, an Assign has a VarRef left child and a right child, an If has a
condition and a guarded statement, Number and VarRef are leaves. -/
def wellShaped : ASTNode → Bool
  | .null => true
  | .node type _ left right =>
    (match type with
      | .AST_ADD | .AST_SUB | .AST_MUL | .AST_DIV | .AST_IF =>
        left != .null && right != .null
      | .AST_ASSIGN =>
        (match left with
          | .node .AST_VAR_DECL _ _ _ => true
          | _ => false) && right != .null
      | .AST_VAR_DECL | .AST_NUMBER => left == .null && right == .null) &&
    wellShaped left && wellShaped right

/-- The value rule at every node of a tree built from `tokens`: binary
operators and If carry the empty value, a Number or VarRef carries the text of
some token, and an Assign carries the text of the token just before the one
its left child was made from. -/
def valuesFrom (tokens : List Token) : ASTNode → Prop
  | .null => True
  | .node type value left right =>
    (match type with
      | .AST_ADD | .AST_SUB | .AST_MUL | .AST_DIV | .AST_IF => value = ""
      | .AST_VAR_DECL | .AST_NUMBER => ∃ k, value = (tokenAt tokens k).text
      | .AST_ASSIGN => ∃ k, value = (tokenAt tokens k).text ∧
          left = createNode .AST_VAR_DECL (tokenAt tokens (k + 1)).text) ∧
    valuesFrom tokens left ∧ valuesFrom tokens right

/-- Well-formedness of a token text for its kind, as the lexer rules give it;
the empty text of an Unknown token is the one stored for a NUL byte. -/
def wellFormed (t : Token) : Prop :=
  match t.type with
  | .TOKEN_IDENTIFIER =>
    ∃ c w, t.text = String.mk (c :: w) ∧ isalpha c = true ∧ ∀ x ∈ w, isalnum x = true
  | .TOKEN_NUMBER =>
    ∃ c w, t.text = String.mk (c :: w) ∧ isdigit c = true ∧ ∀ x ∈ w, isdigit x = true
  | .TOKEN_OPERATOR => t.text = "+" ∨ t.text = "-" ∨ t.text = "*" ∨ t.text = "/"
  | .TOKEN_ASSIGN => t.text = "="
  | .TOKEN_PAREN_OPEN => t.text = "("
  | .TOKEN_PAREN_CLOSE => t.text = ")"
  | .TOKEN_UNKNOWN =>
    t.text = "" ∨
    ∃ c, t.text = String.mk [c] ∧ c ≠ nulChar ∧ isspace c = false ∧
      isalnum c = false ∧ c ∉ ['=', '+', '-', '*', '/', '(', ')', '{', '}']
  | .TOKEN_IF | .TOKEN_EOF => True

end Task7

namespace Task56

/-- A token of the earliest revision: the text only. -/
structure Token where
  text : String
  deriving DecidableEq, Repr

/-- A zero-initialised entry of the static array `tokens`. -/
def zeroToken : Token := ⟨""⟩

/-- The read `tokens[i]`. -/
def tokenAt (tokens : List Token) (i : Nat) : Token :=
  tokens.getD i zeroToken

/-- The read `text[0]` of a token; the terminating NUL for an empty text. -/
def text0 (t : Token) : Char :=
  t.text.data.headD (Char.ofNat 0)

/-- Outcome of a parsing function of the earliest revision: the returned
pointer with the updated cursor, or exhausted fuel. There is no `exit`. -/
inductive ParseResult where
  | ok (node : ASTNode) (index : Nat)
  | outOfFuel
  deriving DecidableEq, Repr

/-- The function `parseFactor` of the earliest revision: it accepts any token. -/
def parseFactor (tokens : List Token) (index : Nat) : ASTNode × Nat :=
  if isdigit (text0 (tokenAt tokens index)) then
    (createNode .AST_NUMBER (tokenAt tokens index).text, index + 1)
  else (createNode .AST_VAR_DECL (tokenAt tokens index).text, index + 1)

/-- The `while` loop of `parseTerm`. -/
def parseTermLoop : Nat → List Token → ASTNode → Nat → ParseResult
  | 0, _, _, _ => .outOfFuel
  | fuel + 1, tokens, left, index =>
    if text0 (tokenAt tokens index) = '*' ∨ text0 (tokenAt tokens index) = '/' then
      let op := text0 (tokenAt tokens index)
      let right := parseFactor tokens (index + 1)
      parseTermLoop fuel tokens
        (.node (if op = '*' then .AST_MUL else .AST_DIV) "" left right.1) right.2
    else .ok left index

/-- The function `parseTerm`: every iteration of its loop reads a token inside
the list, so fuel for the tokens left is enough. -/
def parseTerm (tokens : List Token) (index : Nat) : ParseResult :=
  let left := parseFactor tokens index
  parseTermLoop (tokens.length - left.2 + 1) tokens left.1 left.2

/-- The `while` loop of `parseExpression`. -/
def parseExpressionLoop : Nat → List Token → ASTNode → Nat → ParseResult
  | 0, _, _, _ => .outOfFuel
  | fuel + 1, tokens, left, index =>
    if text0 (tokenAt tokens index) = '+' ∨ text0 (tokenAt tokens index) = '-' then
      let op := text0 (tokenAt tokens index)
      match parseTerm tokens (index + 1) with
      | .ok right index =>
        parseExpressionLoop fuel tokens
          (.node (if op = '+' then .AST_ADD else .AST_SUB) "" left right) index
      | r => r
    else .ok left index

/-- The function `parseExpression`. -/
def parseExpression (tokens : List Token) (index : Nat) : ParseResult :=
  match parseTerm tokens index with
  | .ok left index => parseExpressionLoop (tokens.length - index + 1) tokens left index
  | r => r

/-- The function `parseAssignment` of the earliest revision. -/
def parseAssignment (tokens : List Token) (index : Nat) : ParseResult :=
  let value := (tokenAt tokens index).text
  let index := index + 1
  let left := createNode .AST_VAR_DECL (tokenAt tokens index).text
  let index := index + 1
  if (tokenAt tokens index).text = "=" then
    let index := index + 1
    match parseExpression tokens index with
    | .ok right index => .ok (.node .AST_ASSIGN value left right) index
    | r => r
  else .ok (.node .AST_ASSIGN value left .null) index

/-- The function `parseIfStatement` of the earliest revision. -/
def parseIfStatement (tokens : List Token) (index : Nat) : ParseResult :=
  let index := index + 1
  if (tokenAt tokens index).text = "(" then
    let index := index + 1
    match parseExpression tokens index with
    | .ok condition index =>
      if (tokenAt tokens index).text = ")" then
        let index := index + 1
        if (tokenAt tokens index).text = "\x7b" then
          let index := index + 1
          match parseAssignment tokens index with
          | .ok statement index =>
            if (tokenAt tokens index).text = "\x7d" then
              .ok (.node .AST_IF "" condition statement) (index + 1)
            else .ok (.node .AST_IF "" condition statement) index
          | r => r
        else .ok .null index
      else .ok .null index
    | r => r
  else .ok .null index

/-- The characters the earliest lexer stores as one-character tokens. -/
def isSymbol (ch : Char) : Bool :=
  ch == '=' || ch == '+' || ch == '-' || ch == '*' || ch == '/' || ch == '(' ||
    ch == ')' || ch == '{' || ch == '}'

/-- The main loop of `tokenizeFile` of the earliest revision and the flush
after it. The loop ends at the end of the file and at a byte that `char ch`
cannot tell from `EOF`. `token` holds the `tokenIndex` characters collected so
far. A character that is neither whitespace, a symbol nor alphanumeric falls
through both branches. -/
def tokenizeLoop : List Char → List Char → List Token
  | token, [] => if token.length > 0 then [⟨String.mk token⟩] else []
  | token, ch :: file =>
    if ch = eofChar then (if token.length > 0 then [⟨String.mk token⟩] else [])
    else if isspace ch || isSymbol ch then
      (if token.length > 0 then [⟨String.mk token⟩] else []) ++
        ((if isSymbol ch then [⟨String.mk [ch]⟩] else []) ++ tokenizeLoop [] file)
    else if isalnum ch then tokenizeLoop (token ++ [ch]) file
    else tokenizeLoop token file

/-- The function `tokenizeFile` of the earliest revision on the bytes of the
file: the tokens it stores, the buffers taken as large enough. -/
def tokenizeFile (file : List Char) : List Token :=
  tokenizeLoop [] file

/-- No write of the earliest lexer leaves a buffer: every text is shorter than
`MAX_TOKEN_LENGTH` and there are at most `MAX_TOKENS` tokens. -/
abbrev withinBuffers (tokens : List Token) : Prop :=
  tokens.length ≤ MAX_TOKENS ∧ ∀ t ∈ tokens, t.text.length < MAX_TOKEN_LENGTH

/-- The run of the earliest `tokenizeFile` with its fixed buffers: `none` when
a write leaves `token`, `text` or `tokens` (undefined behaviour), the stored
tokens otherwise. -/
def tokenizeFileChecked (file : List Char) : Option (List Token) :=
  if withinBuffers (tokenizeFile file) then some (tokenizeFile file) else none

/-- The function `generateAssembly` of `Task 5-6/parser.c`. -/
def generateAssembly : ASTNode → EmitResult
  | .null => .done []
  | .node type value left right =>
    if type = .AST_ASSIGN then printBinary "MOV" left right
    else if type = .AST_ADD then printBinary "ADD" left right
    else if type = .AST_SUB then printBinary "SUB" left right
    else if type = .AST_MUL then printBinary "MUL" left right
    else if type = .AST_DIV then printBinary "DIV" left right
    else if type = .AST_VAR_DECL then .done ["DECLARE " ++ value]
    else if type = .AST_NUMBER then .done ["PUSH " ++ value]
    else if type = .AST_IF then
      match left.value? with
      | some l => (generateAssembly right).after ["IF " ++ l ++ " == 0 GOTO LABEL"]
      | none => .nullDeref []
    else .done []

end Task56

namespace Task7

/-! ### The parser: cursor progress, fuel stability, enough fuel -/

/-- Cursor progress of the fuelled parser: a factor, term or expression that
returns has advanced the cursor, and the loops never move it back. -/
theorem fuel_progress (n : Nat) :
    (∀ tokens i nd j, parseFactorFuel n tokens i = .ok nd j → i < j) ∧
    (∀ tokens left i nd j, parseTermLoop n tokens left i = .ok nd j → i ≤ j) ∧
    (∀ tokens i nd j, parseTermFuel n tokens i = .ok nd j → i < j) ∧
    (∀ tokens left i nd j, parseExpressionLoop n tokens left i = .ok nd j → i ≤ j) ∧
    (∀ tokens i nd j, parseExpressionFuel n tokens i = .ok nd j → i < j) := by
  induction n with
  | zero =>
    refine ⟨?_, ?_, ?_, ?_, ?_⟩ <;> intros <;> simp_all [parseFactorFuel, parseTermLoop,
      parseTermFuel, parseExpressionLoop, parseExpressionFuel]
  | succ n ih =>
    obtain ⟨hF, hTL, hT, hEL, hE⟩ := ih
    refine ⟨?_, ?_, ?_, ?_, ?_⟩
    · intro tokens i nd j h
      rw [parseFactorFuel] at h
      split at h
      · cases h; omega
      · split at h
        · cases h; omega
        · split at h
          · split at h
            · rename_i nd1 j1 he
              have := hE _ _ _ _ he
              split at h
              · cases h
              · cases h; omega
            · rename_i r hr
              cases r <;> simp_all
          · cases h
    · intro tokens left i nd j h
      rw [parseTermLoop] at h
      split at h
      · simp only at h
        split at h
        · rename_i nd1 j1 he
          have h1 := hF _ _ _ _ he
          have h2 := hTL _ _ _ _ _ h
          omega
        · rename_i r hr
          cases r <;> simp_all
      · cases h; omega
    · intro tokens i nd j h
      rw [parseTermFuel] at h
      split at h
      · rename_i nd1 j1 he
        have h1 := hF _ _ _ _ he
        have h2 := hTL _ _ _ _ _ h
        omega
      · rename_i r hr
        cases r <;> simp_all
    · intro tokens left i nd j h
      rw [parseExpressionLoop] at h
      split at h
      · simp only at h
        split at h
        · rename_i nd1 j1 he
          have h1 := hT _ _ _ _ he
          have h2 := hEL _ _ _ _ _ h
          omega
        · rename_i r hr
          cases r <;> simp_all
      · cases h; omega
    · intro tokens i nd j h
      rw [parseExpressionFuel] at h
      split at h
      · rename_i nd1 j1 he
        have h1 := hT _ _ _ _ he
        have h2 := hEL _ _ _ _ _ h
        omega
      · rename_i r hr
        cases r <;> simp_all


/-- A run of the fuelled parser that did not exhaust its fuel gives the same
result with any larger fuel. -/
theorem fuel_stable (n : Nat) : ∀ m, n ≤ m →
    (∀ tokens i, parseFactorFuel n tokens i ≠ .outOfFuel →
      parseFactorFuel m tokens i = parseFactorFuel n tokens i) ∧
    (∀ tokens left i, parseTermLoop n tokens left i ≠ .outOfFuel →
      parseTermLoop m tokens left i = parseTermLoop n tokens left i) ∧
    (∀ tokens i, parseTermFuel n tokens i ≠ .outOfFuel →
      parseTermFuel m tokens i = parseTermFuel n tokens i) ∧
    (∀ tokens left i, parseExpressionLoop n tokens left i ≠ .outOfFuel →
      parseExpressionLoop m tokens left i = parseExpressionLoop n tokens left i) ∧
    (∀ tokens i, parseExpressionFuel n tokens i ≠ .outOfFuel →
      parseExpressionFuel m tokens i = parseExpressionFuel n tokens i) := by
  induction n with
  | zero =>
    intro m _
    refine ⟨?_, ?_, ?_, ?_, ?_⟩ <;> intros <;> simp_all [parseFactorFuel, parseTermLoop,
      parseTermFuel, parseExpressionLoop, parseExpressionFuel]
  | succ n ih =>
    intro m hm
    obtain ⟨m, rfl⟩ : ∃ k, m = k + 1 := ⟨m - 1, by omega⟩
    obtain ⟨hF, hTL, hT, hEL, hE⟩ := ih m (by omega)
    refine ⟨?_, ?_, ?_, ?_, ?_⟩
    · intro tokens i h
      simp only [parseFactorFuel] at h ⊢
      cases he : parseExpressionFuel n tokens (i + 1) with
      | ok nd j => rw [hE tokens (i + 1) (by simp [he]), he]
      | syntaxError msg => rw [hE tokens (i + 1) (by simp [he]), he]
      | outOfFuel =>
        rw [he] at h
        split at h
        · simp_all
        · split at h
          · simp_all
          · split at h
            · exact absurd rfl h
            · simp_all
    · intro tokens left i h
      simp only [parseTermLoop] at h ⊢
      split
      · rename_i hc
        rw [if_pos hc] at h
        cases he : parseFactorFuel n tokens (i + 1) with
        | ok nd j =>
          rw [he] at h
          rw [hF tokens (i + 1) (by simp [he]), he]
          exact hTL _ _ _ h
        | syntaxError msg => rw [hF tokens (i + 1) (by simp [he]), he]
        | outOfFuel => rw [he] at h; exact absurd rfl h
      · rfl
    · intro tokens i h
      simp only [parseTermFuel] at h ⊢
      cases he : parseFactorFuel n tokens i with
      | ok nd j =>
        rw [he] at h
        rw [hF tokens i (by simp [he]), he]
        exact hTL _ _ _ h
      | syntaxError msg => rw [hF tokens i (by simp [he]), he]
      | outOfFuel => rw [he] at h; exact absurd rfl h
    · intro tokens left i h
      simp only [parseExpressionLoop] at h ⊢
      split
      · rename_i hc
        rw [if_pos hc] at h
        cases he : parseTermFuel n tokens (i + 1) with
        | ok nd j =>
          rw [he] at h
          rw [hT tokens (i + 1) (by simp [he]), he]
          exact hEL _ _ _ h
        | syntaxError msg => rw [hT tokens (i + 1) (by simp [he]), he]
        | outOfFuel => rw [he] at h; exact absurd rfl h
      · rfl
    · intro tokens i h
      simp only [parseExpressionFuel] at h ⊢
      cases he : parseTermFuel n tokens i with
      | ok nd j =>
        rw [he] at h
        rw [hT tokens i (by simp [he]), he]
        exact hEL _ _ _ h
      | syntaxError msg => rw [hT tokens i (by simp [he]), he]
      | outOfFuel => rw [he] at h; exact absurd rfl h

/-- A token that is not the zero entry lies inside the token list. -/
theorem lt_length_of_type_ne (tokens : List Token) (i : Nat)
    (h : (tokenAt tokens i).type ≠ .TOKEN_IDENTIFIER) : i < tokens.length := by
  by_contra hlt
  apply h
  simp [tokenAt, List.getD, List.getElem?_eq_none (Nat.le_of_not_lt hlt), zeroToken]

/-- Enough fuel: three units for every token left after the cursor, plus the
depth of the call chain expression, term, factor. -/
theorem fuel_enough (n : Nat) :
    (∀ tokens i, 3 * (List.length tokens - i) + 1 ≤ n →
      parseFactorFuel n tokens i ≠ .outOfFuel) ∧
    (∀ tokens left i, 3 * (List.length tokens - i) + 1 ≤ n →
      parseTermLoop n tokens left i ≠ .outOfFuel) ∧
    (∀ tokens i, 3 * (List.length tokens - i) + 2 ≤ n →
      parseTermFuel n tokens i ≠ .outOfFuel) ∧
    (∀ tokens left i, 3 * (List.length tokens - i) + 2 ≤ n →
      parseExpressionLoop n tokens left i ≠ .outOfFuel) ∧
    (∀ tokens i, 3 * (List.length tokens - i) + 3 ≤ n →
      parseExpressionFuel n tokens i ≠ .outOfFuel) := by
  induction n with
  | zero =>
    refine ⟨?_, ?_, ?_, ?_, ?_⟩ <;> intros <;> omega
  | succ n ih =>
    obtain ⟨hF, hTL, hT, hEL, hE⟩ := ih
    obtain ⟨pF, pTL, pT, pEL, pE⟩ := fuel_progress n
    refine ⟨?_, ?_, ?_, ?_, ?_⟩
    · intro tokens i hn
      simp only [parseFactorFuel]
      split
      · exact ParseResult.noConfusion
      · split
        · exact ParseResult.noConfusion
        · split
          · rename_i hp
            have hlt := lt_length_of_type_ne tokens i (by rw [hp]; decide)
            have h1 := hE tokens (i + 1) (by omega)
            cases he : parseExpressionFuel n tokens (i + 1) with
            | ok nd j => dsimp only; split <;> exact ParseResult.noConfusion
            | syntaxError msg => exact ParseResult.noConfusion
            | outOfFuel => exact absurd he h1
          · exact ParseResult.noConfusion
    · intro tokens left i hn
      simp only [parseTermLoop]
      split
      · rename_i hc
        have hlt := lt_length_of_type_ne tokens i (by rw [hc.1]; decide)
        have h1 := hF tokens (i + 1) (by omega)
        cases he : parseFactorFuel n tokens (i + 1) with
        | ok nd j =>
          have := pF _ _ _ _ he
          exact hTL _ _ _ (by omega)
        | syntaxError msg => exact ParseResult.noConfusion
        | outOfFuel => exact absurd he h1
      · exact ParseResult.noConfusion
    · intro tokens i hn
      simp only [parseTermFuel]
      have h1 := hF tokens i (by omega)
      cases he : parseFactorFuel n tokens i with
      | ok nd j =>
        have := pF _ _ _ _ he
        exact hTL _ _ _ (by omega)
      | syntaxError msg => exact ParseResult.noConfusion
      | outOfFuel => exact absurd he h1
    · intro tokens left i hn
      simp only [parseExpressionLoop]
      split
      · rename_i hc
        have hlt := lt_length_of_type_ne tokens i (by rw [hc.1]; decide)
        have h1 := hT tokens (i + 1) (by omega)
        cases he : parseTermFuel n tokens (i + 1) with
        | ok nd j =>
          have := pT _ _ _ _ he
          exact hEL _ _ _ (by omega)
        | syntaxError msg => exact ParseResult.noConfusion
        | outOfFuel => exact absurd he h1
      · exact ParseResult.noConfusion
    · intro tokens i hn
      simp only [parseExpressionFuel]
      have h1 := hT tokens i (by omega)
      cases he : parseTermFuel n tokens i with
      | ok nd j =>
        have := pT _ _ _ _ he
        exact hEL _ _ _ (by omega)
      | syntaxError msg => exact ParseResult.noConfusion
      | outOfFuel => exact absurd he h1


theorem parseFactorFuel_eq (tokens : List Token) (i n : Nat)
    (h : 3 * (tokens.length - i) + 1 ≤ n) :
    parseFactorFuel n tokens i = parseFactor tokens i :=
  (fuel_stable _ n h).1 tokens i ((fuel_enough _).1 tokens i (Nat.le_refl _))

theorem parseTermLoop_eq (tokens : List Token) (left : ASTNode) (i n : Nat)
    (h : 3 * (tokens.length - i) + 1 ≤ n) :
    parseTermLoop n tokens left i = parseTermWhile tokens left i :=
  (fuel_stable _ n h).2.1 tokens left i ((fuel_enough _).2.1 tokens left i (Nat.le_refl _))

theorem parseTermFuel_eq (tokens : List Token) (i n : Nat)
    (h : 3 * (tokens.length - i) + 2 ≤ n) :
    parseTermFuel n tokens i = parseTerm tokens i :=
  (fuel_stable _ n h).2.2.1 tokens i ((fuel_enough _).2.2.1 tokens i (Nat.le_refl _))

theorem parseExpressionLoop_eq (tokens : List Token) (left : ASTNode) (i n : Nat)
    (h : 3 * (tokens.length - i) + 2 ≤ n) :
    parseExpressionLoop n tokens left i = parseExpressionWhile tokens left i :=
  (fuel_stable _ n h).2.2.2.1 tokens left i
    ((fuel_enough _).2.2.2.1 tokens left i (Nat.le_refl _))

theorem parseExpressionFuel_eq (tokens : List Token) (i n : Nat)
    (h : 3 * (tokens.length - i) + 3 ≤ n) :
    parseExpressionFuel n tokens i = parseExpression tokens i :=
  (fuel_stable _ n h).2.2.2.2 tokens i ((fuel_enough _).2.2.2.2 tokens i (Nat.le_refl _))

/-- The parser never runs out of the fuel its entry points supply. -/
theorem parseFactor_ne_outOfFuel (tokens : List Token) (i : Nat) :
    parseFactor tokens i ≠ .outOfFuel :=
  (fuel_enough _).1 tokens i (Nat.le_refl _)

theorem parseTerm_ne_outOfFuel (tokens : List Token) (i : Nat) :
    parseTerm tokens i ≠ .outOfFuel :=
  (fuel_enough _).2.2.1 tokens i (Nat.le_refl _)

theorem parseExpression_ne_outOfFuel (tokens : List Token) (i : Nat) :
    parseExpression tokens i ≠ .outOfFuel :=
  (fuel_enough _).2.2.2.2 tokens i (Nat.le_refl _)

theorem parseFactor_progress {tokens : List Token} {i j : Nat} {nd : ASTNode}
    (h : parseFactor tokens i = .ok nd j) : i < j :=
  (fuel_progress _).1 _ _ _ _ h

theorem parseTerm_progress {tokens : List Token} {i j : Nat} {nd : ASTNode}
    (h : parseTerm tokens i = .ok nd j) : i < j :=
  (fuel_progress _).2.2.1 _ _ _ _ h

theorem parseExpression_progress {tokens : List Token} {i j : Nat} {nd : ASTNode}
    (h : parseExpression tokens i = .ok nd j) : i < j :=
  (fuel_progress _).2.2.2.2 _ _ _ _ h

/-- The body of `parseFactor`, read off the source. -/
theorem parseFactor_eq (tokens : List Token) (index : Nat) :
    parseFactor tokens index =
      if (tokenAt tokens index).type = .TOKEN_NUMBER then
        .ok (createNode .AST_NUMBER (tokenAt tokens index).text) (index + 1)
      else if (tokenAt tokens index).type = .TOKEN_IDENTIFIER then
        .ok (createNode .AST_VAR_DECL (tokenAt tokens index).text) (index + 1)
      else if (tokenAt tokens index).type = .TOKEN_PAREN_OPEN then
        match parseExpression tokens (index + 1) with
        | .ok node index =>
          if (tokenAt tokens index).type ≠ .TOKEN_PAREN_CLOSE then
            .syntaxError "Syntax error: expected ')'"
          else .ok node (index + 1)
        | r => r
      else .syntaxError "Syntax error: unexpected token" := by
  unfold parseFactor
  simp only [parseFactorFuel]
  by_cases hp : (tokenAt tokens index).type = .TOKEN_PAREN_OPEN
  · have hlt := lt_length_of_type_ne tokens index (by rw [hp]; decide)
    rw [parseExpressionFuel_eq tokens (index + 1) _ (by omega)]
  · simp only [hp, if_false]

/-- The body of the loop of `parseTerm`. -/
theorem parseTermWhile_eq (tokens : List Token) (left : ASTNode) (index : Nat) :
    parseTermWhile tokens left index =
      if (tokenAt tokens index).type = .TOKEN_OPERATOR ∧
          (text0 (tokenAt tokens index) = '*' ∨ text0 (tokenAt tokens index) = '/') then
        match parseFactor tokens (index + 1) with
        | .ok right index' =>
          parseTermWhile tokens
            (.node (if text0 (tokenAt tokens index) = '*' then .AST_MUL else .AST_DIV) ""
              left right) index'
        | r => r
      else .ok left index := by
  unfold parseTermWhile
  simp only [parseTermLoop]
  split
  · rename_i hc
    have hlt := lt_length_of_type_ne tokens index (by rw [hc.1]; decide)
    rw [parseFactorFuel_eq tokens (index + 1) _ (by omega)]
    cases he : parseFactor tokens (index + 1) with
    | ok nd j =>
      have := parseFactor_progress he
      exact parseTermLoop_eq tokens _ j (3 * (tokens.length - index)) (by omega)
    | syntaxError msg => rfl
    | outOfFuel => rfl
  · rfl

/-- The body of `parseTerm`. -/
theorem parseTerm_eq (tokens : List Token) (index : Nat) :
    parseTerm tokens index =
      match parseFactor tokens index with
      | .ok left index' => parseTermWhile tokens left index'
      | r => r := by
  unfold parseTerm
  simp only [parseTermFuel]
  rw [parseFactorFuel_eq tokens index _ (by omega)]
  cases he : parseFactor tokens index with
  | ok nd j =>
    have := parseFactor_progress he
    exact parseTermLoop_eq tokens _ j (3 * (tokens.length - index) + 1) (by omega)
  | syntaxError msg => rfl
  | outOfFuel => rfl

/-- The body of the loop of `parseExpression`. -/
theorem parseExpressionWhile_eq (tokens : List Token) (left : ASTNode) (index : Nat) :
    parseExpressionWhile tokens left index =
      if (tokenAt tokens index).type = .TOKEN_OPERATOR ∧
          (text0 (tokenAt tokens index) = '+' ∨ text0 (tokenAt tokens index) = '-') then
        match parseTerm tokens (index + 1) with
        | .ok right index' =>
          parseExpressionWhile tokens
            (.node (if text0 (tokenAt tokens index) = '+' then .AST_ADD else .AST_SUB) ""
              left right) index'
        | r => r
      else .ok left index := by
  unfold parseExpressionWhile
  simp only [parseExpressionLoop]
  split
  · rename_i hc
    have hlt := lt_length_of_type_ne tokens index (by rw [hc.1]; decide)
    rw [parseTermFuel_eq tokens (index + 1) _ (by omega)]
    cases he : parseTerm tokens (index + 1) with
    | ok nd j =>
      have := parseTerm_progress he
      exact parseExpressionLoop_eq tokens _ j (3 * (tokens.length - index) + 1) (by omega)
    | syntaxError msg => rfl
    | outOfFuel => rfl
  · rfl

/-- The body of `parseExpression`. -/
theorem parseExpression_eq (tokens : List Token) (index : Nat) :
    parseExpression tokens index =
      match parseTerm tokens index with
      | .ok left index' => parseExpressionWhile tokens left index'
      | r => r := by
  unfold parseExpression
  simp only [parseExpressionFuel]
  rw [parseTermFuel_eq tokens index _ (by omega)]
  cases he : parseTerm tokens index with
  | ok nd j =>
    have := parseTerm_progress he
    exact parseExpressionLoop_eq tokens _ j (3 * (tokens.length - index) + 2) (by omega)
  | syntaxError msg => rfl
  | outOfFuel => rfl


/-! ### Single steps of the parser -/

theorem tokenAt_append_add (pre post : List Token) (k : Nat) :
    tokenAt (pre ++ post) (pre.length + k) = tokenAt post k := by
  simp [tokenAt, List.getD, List.getElem?_append_right]

theorem tokenAt_append_length (pre : List Token) (t : Token) (post : List Token) :
    tokenAt (pre ++ t :: post) pre.length = t := by
  have h := tokenAt_append_add pre (t :: post) 0
  rw [Nat.add_zero] at h
  rw [h]
  rfl

theorem text0_opToken (op : Char) : text0 (opToken op) = op := rfl

theorem type_opToken (op : Char) : (opToken op).type = .TOKEN_OPERATOR := rfl

theorem not_isMulOp_of_factor {t : Token} (h : isFactorToken t) : ¬ isMulOp t := by
  rintro ⟨h1, _⟩
  rcases h with h | h <;> rw [h1] at h <;> cases h

theorem not_isAddOp_of_factor {t : Token} (h : isFactorToken t) : ¬ isAddOp t := by
  rintro ⟨h1, _⟩
  rcases h with h | h <;> rw [h1] at h <;> cases h

theorem parseFactor_leaf (tokens : List Token) (i : Nat)
    (h : isFactorToken (tokenAt tokens i)) :
    parseFactor tokens i = .ok (leaf (tokenAt tokens i)) (i + 1) := by
  rw [parseFactor_eq, leaf]
  rcases h with h | h
  · simp [h]
  · simp [h]

theorem parseTermWhile_stop (tokens : List Token) (left : ASTNode) (i : Nat)
    (h : ¬ isMulOp (tokenAt tokens i)) : parseTermWhile tokens left i = .ok left i := by
  rw [parseTermWhile_eq, if_neg h]

theorem parseTermWhile_step (tokens : List Token) (left : ASTNode) (i : Nat)
    (h : isMulOp (tokenAt tokens i)) (hf : isFactorToken (tokenAt tokens (i + 1))) :
    parseTermWhile tokens left i =
      parseTermWhile tokens
        (.node (if text0 (tokenAt tokens i) = '*' then .AST_MUL else .AST_DIV) "" left
          (leaf (tokenAt tokens (i + 1)))) (i + 2) := by
  rw [parseTermWhile_eq, if_pos h, parseFactor_leaf _ _ hf]

theorem parseExpressionWhile_stop (tokens : List Token) (left : ASTNode) (i : Nat)
    (h : ¬ isAddOp (tokenAt tokens i)) :
    parseExpressionWhile tokens left i = .ok left i := by
  rw [parseExpressionWhile_eq, if_neg h]

theorem parseExpressionWhile_step (tokens : List Token) (left : ASTNode) (i : Nat)
    {right : ASTNode} {j : Nat}
    (h : isAddOp (tokenAt tokens i)) (ht : parseTerm tokens (i + 1) = .ok right j) :
    parseExpressionWhile tokens left i =
      parseExpressionWhile tokens
        (.node (if text0 (tokenAt tokens i) = '+' then .AST_ADD else .AST_SUB) "" left
          right) j := by
  rw [parseExpressionWhile_eq, if_pos h, ht]

/-- A one-token factor followed by no `*` or `/` is a whole term. -/
theorem parseTerm_leaf (tokens : List Token) (i : Nat)
    (h : isFactorToken (tokenAt tokens i)) (hs : ¬ isMulOp (tokenAt tokens (i + 1))) :
    parseTerm tokens i = .ok (leaf (tokenAt tokens i)) (i + 1) := by
  rw [parseTerm_eq, parseFactor_leaf _ _ h]
  exact parseTermWhile_stop _ _ _ hs

/-- A one-token factor followed by no operator is a whole expression. -/
theorem parseExpression_leaf (tokens : List Token) (i : Nat)
    (h : isFactorToken (tokenAt tokens i)) (hm : ¬ isMulOp (tokenAt tokens (i + 1)))
    (ha : ¬ isAddOp (tokenAt tokens (i + 1))) :
    parseExpression tokens i = .ok (leaf (tokenAt tokens i)) (i + 1) := by
  rw [parseExpression_eq, parseTerm_leaf _ _ h hm]
  exact parseExpressionWhile_stop _ _ _ ha

/-- The body of `parseAssignment` behind a `TOKEN_ASSIGN` at `index + 2`. -/
theorem parseAssignment_of_assign (tokens : List Token) (index : Nat)
    (h : (tokenAt tokens (index + 2)).type = .TOKEN_ASSIGN) :
    parseAssignment tokens index =
      match parseExpression tokens (index + 3) with
      | .ok right j =>
        .ok (.node .AST_ASSIGN (tokenAt tokens index).text
          (createNode .AST_VAR_DECL (tokenAt tokens (index + 1)).text) right) j
      | r => r := by
  simp only [parseAssignment, h, if_true]

/-- The body of `parseIfStatement` when `(`, a condition and `)` follow. -/
theorem parseIfStatement_of_paren (tokens : List Token) (index : Nat)
    {condition : ASTNode} {j : Nat}
    (h1 : (tokenAt tokens (index + 1)).type = .TOKEN_PAREN_OPEN)
    (h2 : parseExpression tokens (index + 2) = .ok condition j)
    (h3 : (tokenAt tokens j).type = .TOKEN_PAREN_CLOSE) :
    parseIfStatement tokens index =
      match parseAssignment tokens (j + 1) with
      | .ok statement k => .ok (.node .AST_IF "" condition statement) k
      | r => r := by
  simp only [parseIfStatement, h1, h2, h3, if_true, ne_eq, not_true_eq_false, if_false]

/-! ### C1: assignment parsing -/

/-- C1 (as amended): `parseAssignment` reads two tokens before the `=`. For
every token sequence that has at the cursor a token with text `t`, then a token
with text `v`, then a `TOKEN_ASSIGN`, then an expression that `parseExpression`
parses from the token after `=`, the result is an Assign node with own value
`t`, left child `VarRef(v)` and that expression tree as right child, at the
cursor the expression parse left. The tokens of `int x = 1 + 2 * 3` give
`Assign(VarRef(x), Add(Number(1), Mul(Number(2), Number(3))))`, and the tokens
of `1 1 = 2` parse without error to an Assign whose left child is
`VarRef("1")`. -/
theorem parseAssignment_two_tokens_then_assign :
    (∀ (tokens : List Token) (c : Nat) (right : ASTNode) (j : Nat),
      (tokenAt tokens (c + 2)).type = .TOKEN_ASSIGN →
      parseExpression tokens (c + 3) = .ok right j →
      parseAssignment tokens c =
        .ok (.node .AST_ASSIGN (tokenAt tokens c).text
          (createNode .AST_VAR_DECL (tokenAt tokens (c + 1)).text) right) j) ∧
    parseAssignment (tokenizeFile "int x = 1 + 2 * 3".data) 0 =
      .ok (.node .AST_ASSIGN "int" (createNode .AST_VAR_DECL "x")
        (.node .AST_ADD "" (createNode .AST_NUMBER "1")
          (.node .AST_MUL "" (createNode .AST_NUMBER "2") (createNode .AST_NUMBER "3")))) 8 ∧
    parseAssignment (tokenizeFile "1 1 = 2".data) 0 =
      .ok (.node .AST_ASSIGN "1" (createNode .AST_VAR_DECL "1")
        (createNode .AST_NUMBER "2")) 4 := by
  refine ⟨?_, by decide, by decide⟩
  intro tokens c right j h he
  rw [parseAssignment_of_assign _ _ h, he]

/-- Witness for C1: the general part applied to the four tokens of `int x = 5`. -/
theorem parseAssignment_two_tokens_then_assign_witness :
    parseAssignment (tokenizeFile "int x = 5".data) 0 =
      .ok (.node .AST_ASSIGN "int" (createNode .AST_VAR_DECL "x")
        (createNode .AST_NUMBER "5")) 4 :=
  parseAssignment_two_tokens_then_assign.1 (tokenizeFile "int x = 5".data) 0
    (createNode .AST_NUMBER "5") 4 (by decide) (by decide)

/-- Counterexample to C1 as stated: on the tokens of `x = 1 + 2 * 3` the code
makes `VarRef("=")` the left child, finds the number `1` where it looks for
`=`, and returns an Assign with no right child at cursor 2. -/
theorem parseAssignment_target_counterexample :
    parseAssignment (tokenizeFile "x = 1 + 2 * 3".data) 0 =
      .ok (.node .AST_ASSIGN "x" (createNode .AST_VAR_DECL "=") .null) 2 ∧
    ¬ ∃ v j, parseAssignment (tokenizeFile "x = 1 + 2 * 3".data) 0 =
      .ok (.node .AST_ASSIGN v (createNode .AST_VAR_DECL "x")
        (.node .AST_ADD "" (createNode .AST_NUMBER "1")
          (.node .AST_MUL "" (createNode .AST_NUMBER "2") (createNode .AST_NUMBER "3")))) j := by
  have e : parseAssignment (tokenizeFile "x = 1 + 2 * 3".data) 0 =
      .ok (.node .AST_ASSIGN "x" (createNode .AST_VAR_DECL "=") .null) 2 := by decide
  refine ⟨e, ?_⟩
  rintro ⟨v, j, h⟩
  rw [e] at h
  simp [createNode] at h


/-! ### C2, C3: precedence and left associativity -/

theorem isMulOp_opToken {op : Char} (h : op = '*' ∨ op = '/') : isMulOp (opToken op) :=
  ⟨rfl, h⟩

theorem isAddOp_opToken {op : Char} (h : op = '+' ∨ op = '-') : isAddOp (opToken op) :=
  ⟨rfl, h⟩

theorem not_isMulOp_opToken {op : Char} (h : op = '+' ∨ op = '-') :
    ¬ isMulOp (opToken op) := by
  rintro ⟨_, h2⟩
  rw [text0_opToken] at h2
  rcases h with rfl | rfl <;> rcases h2 with h2 | h2 <;> exact absurd h2 (by decide)

theorem not_isAddOp_opToken {op : Char} (h : op = '*' ∨ op = '/') :
    ¬ isAddOp (opToken op) := by
  rintro ⟨_, h2⟩
  rw [text0_opToken] at h2
  rcases h with rfl | rfl <;> rcases h2 with h2 | h2 <;> exact absurd h2 (by decide)

theorem not_isMulOp_zeroToken : ¬ isMulOp zeroToken := by decide

theorem not_isAddOp_zeroToken : ¬ isAddOp zeroToken := by decide

theorem mulKind_eq {op : Char} (h : op = '*' ∨ op = '/') :
    (if op = '*' then ASTNodeType.AST_MUL else ASTNodeType.AST_DIV) = binKind op := by
  rcases h with rfl | rfl <;> decide

theorem addKind_eq {op : Char} (h : op = '+' ∨ op = '-') :
    (if op = '+' then ASTNodeType.AST_ADD else ASTNodeType.AST_SUB) = binKind op := by
  rcases h with rfl | rfl <;> decide

/-- The loop of `parseTerm` folds a chain of `*` and `/` to the left. -/
theorem parseTermWhile_chain (rest : List (Char × Token)) :
    ∀ (pre post : List Token) (left : ASTNode),
      (∀ p ∈ rest, (p.1 = '*' ∨ p.1 = '/') ∧ isFactorToken p.2) →
      ¬ isMulOp (tokenAt post 0) →
      parseTermWhile (pre ++ chainTokens rest ++ post) left pre.length =
        .ok (foldLeft left rest) (pre.length + 2 * rest.length) := by
  induction rest with
  | nil =>
    intro pre post left _ hpost
    have h0 : tokenAt (pre ++ chainTokens [] ++ post) pre.length = tokenAt post 0 := by
      have := tokenAt_append_add pre post 0
      simpa [chainTokens] using this
    rw [parseTermWhile_stop _ _ _ (by rw [h0]; exact hpost)]
    rfl
  | cons p rest ih =>
    obtain ⟨op, f⟩ := p
    intro pre post left hall hpost
    have hp := hall (op, f) (List.mem_cons_self _ _)
    have e : pre ++ chainTokens ((op, f) :: rest) ++ post =
        pre ++ opToken op :: f :: (chainTokens rest ++ post) := by
      simp [chainTokens]
    have e' : pre ++ chainTokens ((op, f) :: rest) ++ post =
        (pre ++ [opToken op, f]) ++ chainTokens rest ++ post := by
      simp [chainTokens]
    have h0 : tokenAt (pre ++ chainTokens ((op, f) :: rest) ++ post) pre.length =
        opToken op := by
      rw [e, tokenAt_append_length]
    have h1 : tokenAt (pre ++ chainTokens ((op, f) :: rest) ++ post) (pre.length + 1) =
        f := by
      rw [e, tokenAt_append_add]; rfl
    rw [parseTermWhile_step _ _ _ (by rw [h0]; exact isMulOp_opToken hp.1) (by rw [h1]; exact hp.2),
      h0, h1, text0_opToken, mulKind_eq hp.1, e']
    have hlen : pre.length + 2 = (pre ++ [opToken op, f]).length := by simp
    rw [hlen, ih (pre ++ [opToken op, f]) post _
      (fun q hq => hall q (List.mem_cons_of_mem _ hq)) hpost]
    simp only [foldLeft, binNode, List.length_cons, List.length_append, List.length_nil]
    congr 1
    omega

/-- The token after a chain of `+`/`-` links is no `*` or `/` operator. -/
theorem not_isMulOp_chain_head (rest : List (Char × Token)) (post : List Token)
    (hall : ∀ p ∈ rest, (p.1 = '+' ∨ p.1 = '-') ∧ isFactorToken p.2)
    (hpost : ¬ isMulOp (tokenAt post 0)) :
    ¬ isMulOp (tokenAt (chainTokens rest ++ post) 0) := by
  cases rest with
  | nil => simpa [chainTokens] using hpost
  | cons p rest =>
    obtain ⟨op, f⟩ := p
    have hp := hall (op, f) (List.mem_cons_self _ _)
    exact not_isMulOp_opToken hp.1

/-- The loop of `parseExpression` folds a chain of `+` and `-` to the left. -/
theorem parseExpressionWhile_chain (rest : List (Char × Token)) :
    ∀ (pre post : List Token) (left : ASTNode),
      (∀ p ∈ rest, (p.1 = '+' ∨ p.1 = '-') ∧ isFactorToken p.2) →
      ¬ isMulOp (tokenAt post 0) → ¬ isAddOp (tokenAt post 0) →
      parseExpressionWhile (pre ++ chainTokens rest ++ post) left pre.length =
        .ok (foldLeft left rest) (pre.length + 2 * rest.length) := by
  induction rest with
  | nil =>
    intro pre post left _ _ hpost
    have h0 : tokenAt (pre ++ chainTokens [] ++ post) pre.length = tokenAt post 0 := by
      have := tokenAt_append_add pre post 0
      simpa [chainTokens] using this
    rw [parseExpressionWhile_stop _ _ _ (by rw [h0]; exact hpost)]
    rfl
  | cons p rest ih =>
    obtain ⟨op, f⟩ := p
    intro pre post left hall hmul hpost
    have hp := hall (op, f) (List.mem_cons_self _ _)
    have hrest : ∀ q ∈ rest, (q.1 = '+' ∨ q.1 = '-') ∧ isFactorToken q.2 :=
      fun q hq => hall q (List.mem_cons_of_mem _ hq)
    have e : pre ++ chainTokens ((op, f) :: rest) ++ post =
        pre ++ opToken op :: f :: (chainTokens rest ++ post) := by
      simp [chainTokens]
    have e' : pre ++ chainTokens ((op, f) :: rest) ++ post =
        (pre ++ [opToken op, f]) ++ chainTokens rest ++ post := by
      simp [chainTokens]
    have hlen : pre.length + 2 = (pre ++ [opToken op, f]).length := by simp
    have h0 : tokenAt (pre ++ chainTokens ((op, f) :: rest) ++ post) pre.length =
        opToken op := by
      rw [e, tokenAt_append_length]
    have h1 : tokenAt (pre ++ chainTokens ((op, f) :: rest) ++ post) (pre.length + 1) =
        f := by
      rw [e, tokenAt_append_add]; rfl
    have h2 : tokenAt (pre ++ chainTokens ((op, f) :: rest) ++ post) (pre.length + 1 + 1) =
        tokenAt (chainTokens rest ++ post) 0 := by
      rw [e', List.append_assoc, show pre.length + 1 + 1 =
        (pre ++ [opToken op, f]).length + 0 by simp, tokenAt_append_add]
    have ht : parseTerm (pre ++ chainTokens ((op, f) :: rest) ++ post) (pre.length + 1) =
        .ok (leaf f) (pre.length + 2) := by
      rw [parseTerm_leaf _ _ (by rw [h1]; exact hp.2)
        (by rw [h2]; exact not_isMulOp_chain_head rest post hrest hmul), h1]
    rw [parseExpressionWhile_step _ _ _ (by rw [h0]; exact isAddOp_opToken hp.1) ht,
      h0, text0_opToken, addKind_eq hp.1, e', hlen,
      ih (pre ++ [opToken op, f]) post _ hrest hmul hpost]
    simp only [foldLeft, binNode, List.length_cons, List.length_append, List.length_nil]
    congr 1
    omega


/-- C2: operator precedence. For factor tokens `a`, `b`, `c` (Number or
Identifier), `op1` one of `+`, `-` and `op2` one of `*`, `/`, `parseExpression`
on the five tokens `a op1 b op2 c` returns `op1(a, op2(b, c))`, and on
`a op2 b op1 c` it returns `op1(op2(a, b), c)`, both with the cursor advanced by
5. The tokens of `a + b * c` give `Add(VarRef(a), Mul(VarRef(b), VarRef(c)))`. -/
theorem parseExpression_precedence :
    (∀ (a b c : Token) (op1 op2 : Char),
      isFactorToken a → isFactorToken b → isFactorToken c →
      (op1 = '+' ∨ op1 = '-') → (op2 = '*' ∨ op2 = '/') →
      parseExpression [a, opToken op1, b, opToken op2, c] 0 =
          .ok (binNode op1 (leaf a) (binNode op2 (leaf b) (leaf c))) 5 ∧
        parseExpression [a, opToken op2, b, opToken op1, c] 0 =
          .ok (binNode op1 (binNode op2 (leaf a) (leaf b)) (leaf c)) 5) ∧
    parseExpression (tokenizeFile "a + b * c".data) 0 =
      .ok (.node .AST_ADD "" (createNode .AST_VAR_DECL "a")
        (.node .AST_MUL "" (createNode .AST_VAR_DECL "b") (createNode .AST_VAR_DECL "c"))) 5 := by
  refine ⟨?_, by decide⟩
  intro a b c op1 op2 ha hb hc h1 h2
  constructor
  · have t0 : parseTerm [a, opToken op1, b, opToken op2, c] 0 = .ok (leaf a) 1 :=
      parseTerm_leaf [a, opToken op1, b, opToken op2, c] 0 ha
        (not_isMulOp_opToken h1)
    have t2 : parseTerm [a, opToken op1, b, opToken op2, c] 2 =
        .ok (binNode op2 (leaf b) (leaf c)) 5 := by
      rw [parseTerm_eq,
        parseFactor_leaf [a, opToken op1, b, opToken op2, c] 2 hb]
      show parseTermWhile [a, opToken op1, b, opToken op2, c] (leaf b) 3 = _
      rw [parseTermWhile_step [a, opToken op1, b, opToken op2, c] _ 3
          (isMulOp_opToken h2) hc,
        parseTermWhile_stop [a, opToken op1, b, opToken op2, c] _ 5
          not_isMulOp_zeroToken]
      show ParseResult.ok (.node (if op2 = '*' then .AST_MUL else .AST_DIV) "" (leaf b)
        (leaf c)) 5 = _
      rw [mulKind_eq h2]
      rfl
    rw [parseExpression_eq, t0]
    show parseExpressionWhile [a, opToken op1, b, opToken op2, c] (leaf a) 1 = _
    rw [parseExpressionWhile_step [a, opToken op1, b, opToken op2, c] _ 1
        (isAddOp_opToken h1) t2,
      parseExpressionWhile_stop [a, opToken op1, b, opToken op2, c] _ 5
        not_isAddOp_zeroToken]
    show ParseResult.ok (.node (if op1 = '+' then .AST_ADD else .AST_SUB) "" (leaf a) _) 5 = _
    rw [addKind_eq h1]
    rfl
  · have t0 : parseTerm [a, opToken op2, b, opToken op1, c] 0 =
        .ok (binNode op2 (leaf a) (leaf b)) 3 := by
      rw [parseTerm_eq,
        parseFactor_leaf [a, opToken op2, b, opToken op1, c] 0 ha]
      show parseTermWhile [a, opToken op2, b, opToken op1, c] (leaf a) 1 = _
      rw [parseTermWhile_step [a, opToken op2, b, opToken op1, c] _ 1
          (isMulOp_opToken h2) hb,
        parseTermWhile_stop [a, opToken op2, b, opToken op1, c] _ 3
          (not_isMulOp_opToken h1)]
      show ParseResult.ok (.node (if op2 = '*' then .AST_MUL else .AST_DIV) "" (leaf a)
        (leaf b)) 3 = _
      rw [mulKind_eq h2]
      rfl
    have t4 : parseTerm [a, opToken op2, b, opToken op1, c] 4 = .ok (leaf c) 5 :=
      parseTerm_leaf [a, opToken op2, b, opToken op1, c] 4 hc
        not_isMulOp_zeroToken
    rw [parseExpression_eq, t0]
    show parseExpressionWhile [a, opToken op2, b, opToken op1, c] _ 3 = _
    rw [parseExpressionWhile_step [a, opToken op2, b, opToken op1, c] _ 3
        (isAddOp_opToken h1) t4,
      parseExpressionWhile_stop [a, opToken op2, b, opToken op1, c] _ 5
        not_isAddOp_zeroToken]
    show ParseResult.ok (.node (if op1 = '+' then .AST_ADD else .AST_SUB) "" _ (leaf c)) 5 = _
    rw [addKind_eq h1]
    rfl

/-- Witness for C2: the general part at the tokens `1 - x / 2`. -/
theorem parseExpression_precedence_witness :
    parseExpression [⟨.TOKEN_NUMBER, "1"⟩, opToken '-', ⟨.TOKEN_IDENTIFIER, "x"⟩,
        opToken '/', ⟨.TOKEN_NUMBER, "2"⟩] 0 =
      .ok (binNode '-' (leaf ⟨.TOKEN_NUMBER, "1"⟩)
        (binNode '/' (leaf ⟨.TOKEN_IDENTIFIER, "x"⟩) (leaf ⟨.TOKEN_NUMBER, "2"⟩))) 5 :=
  (parseExpression_precedence.1 ⟨.TOKEN_NUMBER, "1"⟩ ⟨.TOKEN_IDENTIFIER, "x"⟩
    ⟨.TOKEN_NUMBER, "2"⟩ '-' '/' (by decide) (by decide) (by decide) (by decide)
    (by decide)).1

/-- C3: left associativity. For a first factor token `f0` followed by links
`o1 f1 ... on fn` whose operators are all `+` or `-` and whose `fi` are factor
tokens (Number or Identifier), `parseExpression` returns the left fold
`on(...o2(o1(f0, f1), f2)..., fn)` and leaves the cursor just after `fn`; the
same holds for `parseTerm` with operators all `*` or `/`. The tokens of
`10 - 2 - 3` give `Sub(Sub(Number(10), Number(2)), Number(3))`. -/
theorem parse_left_associative :
    (∀ (f0 : Token) (rest : List (Char × Token)), isFactorToken f0 →
      (∀ p ∈ rest, (p.1 = '+' ∨ p.1 = '-') ∧ isFactorToken p.2) →
      parseExpression (f0 :: chainTokens rest) 0 =
        .ok (foldLeft (leaf f0) rest) (2 * rest.length + 1)) ∧
    (∀ (f0 : Token) (rest : List (Char × Token)), isFactorToken f0 →
      (∀ p ∈ rest, (p.1 = '*' ∨ p.1 = '/') ∧ isFactorToken p.2) →
      parseTerm (f0 :: chainTokens rest) 0 =
        .ok (foldLeft (leaf f0) rest) (2 * rest.length + 1)) ∧
    parseExpression (tokenizeFile "10 - 2 - 3".data) 0 =
      .ok (.node .AST_SUB "" (.node .AST_SUB "" (createNode .AST_NUMBER "10")
        (createNode .AST_NUMBER "2")) (createNode .AST_NUMBER "3")) 5 := by
  refine ⟨?_, ?_, by decide⟩
  · intro f0 rest hf hall
    have hm : ¬ isMulOp (tokenAt (f0 :: chainTokens rest) (0 + 1)) := by
      have := not_isMulOp_chain_head rest [] hall not_isMulOp_zeroToken
      simpa [tokenAt] using this
    have t0 : parseTerm (f0 :: chainTokens rest) 0 = .ok (leaf f0) 1 :=
      parseTerm_leaf (f0 :: chainTokens rest) 0 hf hm
    have hc := parseExpressionWhile_chain rest [f0] [] (leaf f0) hall
      not_isMulOp_zeroToken not_isAddOp_zeroToken
    rw [parseExpression_eq, t0]
    simp only [List.append_nil, List.singleton_append, List.length_singleton] at hc
    rw [show 2 * rest.length + 1 = 1 + 2 * rest.length by omega]
    exact hc
  · intro f0 rest hf hall
    have hc := parseTermWhile_chain rest [f0] [] (leaf f0) hall not_isMulOp_zeroToken
    rw [parseTerm_eq, parseFactor_leaf (f0 :: chainTokens rest) 0 hf]
    simp only [List.append_nil, List.singleton_append, List.length_singleton] at hc
    rw [show 2 * rest.length + 1 = 1 + 2 * rest.length by omega]
    exact hc

/-- Witness for C3: the general part at the tokens `10 - 2 + y`. -/
theorem parse_left_associative_witness :
    parseExpression (⟨.TOKEN_NUMBER, "10"⟩ ::
        chainTokens [('-', ⟨.TOKEN_NUMBER, "2"⟩), ('+', ⟨.TOKEN_IDENTIFIER, "y"⟩)]) 0 =
      .ok (foldLeft (leaf ⟨.TOKEN_NUMBER, "10"⟩)
        [('-', ⟨.TOKEN_NUMBER, "2"⟩), ('+', ⟨.TOKEN_IDENTIFIER, "y"⟩)]) 5 :=
  parse_left_associative.1 ⟨.TOKEN_NUMBER, "10"⟩
    [('-', ⟨.TOKEN_NUMBER, "2"⟩), ('+', ⟨.TOKEN_IDENTIFIER, "y"⟩)] (by decide) (by decide)


/-! ### C4, C5: parenthesised factors -/

/-- C4: parenthesised factors. With a `TOKEN_PAREN_OPEN` at cursor `c`,
`parseFactor` returns a tree exactly when `parseExpression` started at `c + 1`
returns it and the token at the resulting cursor is a `TOKEN_PAREN_CLOSE`; the
tree is the inner expression's tree with no wrapper node and the cursor is just
past the closing parenthesis; in every other case `parseFactor` ends in a syntax
error. The tokens of `(1 + 2) * 3` parse as an expression to
`Mul(Add(Number(1), Number(2)), Number(3))`. -/
theorem parseFactor_paren :
    (∀ (tokens : List Token) (c : Nat), (tokenAt tokens c).type = .TOKEN_PAREN_OPEN →
      (∀ nd j, parseFactor tokens c = .ok nd j ↔
        ∃ k, parseExpression tokens (c + 1) = .ok nd k ∧
          (tokenAt tokens k).type = .TOKEN_PAREN_CLOSE ∧ j = k + 1) ∧
      ((¬ ∃ nd k, parseExpression tokens (c + 1) = .ok nd k ∧
          (tokenAt tokens k).type = .TOKEN_PAREN_CLOSE) →
        ∃ msg, parseFactor tokens c = .syntaxError msg)) ∧
    parseExpression (tokenizeFile "(1 + 2) * 3".data) 0 =
      .ok (.node .AST_MUL "" (.node .AST_ADD "" (createNode .AST_NUMBER "1")
        (createNode .AST_NUMBER "2")) (createNode .AST_NUMBER "3")) 7 := by
  refine ⟨?_, by decide⟩
  intro tokens c hp
  have hn : (tokenAt tokens c).type ≠ .TOKEN_NUMBER := by rw [hp]; decide
  have hi : (tokenAt tokens c).type ≠ .TOKEN_IDENTIFIER := by rw [hp]; decide
  have e := parseFactor_eq tokens c
  rw [if_neg hn, if_neg hi, if_pos hp] at e
  have hfuel := parseExpression_ne_outOfFuel tokens (c + 1)
  cases he : parseExpression tokens (c + 1) with
  | ok inner k =>
    rw [he] at e
    by_cases hk : (tokenAt tokens k).type = .TOKEN_PAREN_CLOSE
    · have e' : parseFactor tokens c = .ok inner (k + 1) := by
        rw [e]; simp [hk]
      constructor
      · intro nd j
        rw [e']
        constructor
        · intro h
          cases h
          exact ⟨k, rfl, hk, rfl⟩
        · rintro ⟨k', h1, _, h3⟩
          cases h1
          rw [h3]
      · intro hno
        exact absurd ⟨inner, k, rfl, hk⟩ hno
    · have e' : parseFactor tokens c = .syntaxError "Syntax error: expected ')'" := by
        rw [e]; simp [hk]
      constructor
      · intro nd j
        rw [e']
        constructor
        · intro h; cases h
        · rintro ⟨k', h1, h2, _⟩
          cases h1
          exact absurd h2 hk
      · intro _
        exact ⟨_, e'⟩
  | syntaxError msg =>
    rw [he] at e
    constructor
    · intro nd j
      rw [e]
      constructor
      · intro h; cases h
      · rintro ⟨k', h1, _, _⟩
        cases h1
    · intro _
      exact ⟨msg, e⟩
  | outOfFuel => exact absurd he hfuel

/-- Witness for C4: the general part at the tokens of `(7)`, cursor 0. -/
theorem parseFactor_paren_witness :
    parseFactor (tokenizeFile "(7)".data) 0 = .ok (createNode .AST_NUMBER "7") 3 :=
  ((parseFactor_paren.1 (tokenizeFile "(7)".data) 0 (by decide)).1
    (createNode .AST_NUMBER "7") 3).2 ⟨2, by decide, by decide, rfl⟩

/-- C5 (as amended): parsing the tokens of `int x = (1 + 2` (the two tokens
`parseAssignment` reads before `=`, then an unclosed parenthesis) as a statement
ends in the syntax error `expected ')'` and returns no AST. -/
theorem parseAssignment_missing_paren :
    parseAssignment (tokenizeFile "int x = (1 + 2".data) 0 =
      .syntaxError "Syntax error: expected ')'" := by
  decide

/-- Counterexample to C5 as stated: on the tokens of `x = (1 + 2` the third
token is `(`, not `=`, so `parseAssignment` never parses the parenthesis; it
raises no syntax error and returns an Assign node at cursor 2. -/
theorem parseAssignment_missing_paren_counterexample :
    parseAssignment (tokenizeFile "x = (1 + 2".data) 0 =
      .ok (.node .AST_ASSIGN "x" (createNode .AST_VAR_DECL "=") .null) 2 ∧
    ¬ ∃ msg, parseAssignment (tokenizeFile "x = (1 + 2".data) 0 = .syntaxError msg := by
  have e : parseAssignment (tokenizeFile "x = (1 + 2".data) 0 =
      .ok (.node .AST_ASSIGN "x" (createNode .AST_VAR_DECL "=") .null) 2 := by decide
  refine ⟨e, ?_⟩
  rintro ⟨msg, h⟩
  rw [e] at h
  cases h


/-! ### C6, C7: the emitter -/

theorem value_leaf (t : Token) : (leaf t).value? = some t.text := by
  unfold leaf
  split <;> rfl

theorem leaf_of_identifier {t : Token} (h : t.type = .TOKEN_IDENTIFIER) :
    leaf t = createNode .AST_VAR_DECL t.text := by
  simp [leaf, h]

/-- C6 (as amended): the if statement end to end, with the two tokens
`parseAssignment` reads before `=`. For every condition that is a single
identifier `c` and every guarded statement `t y = v` with `v` a single number or
identifier, `parseIfStatement` from cursor 0 gives
`If(VarRef(c), Assign(VarRef(y), v))` and `generateAssembly` prints exactly
`IF c == 0 GOTO LABEL` then `MOV y, v`. The tokens the lexer produces for
`if ( x ) int y = 1` give `If(VarRef(x), Assign(VarRef(y), Number(1)))` and the
two lines `IF x == 0 GOTO LABEL` and `MOV y, 1`. -/
theorem parseIfStatement_then_emit :
    (∀ (c t y v : Token), c.type = .TOKEN_IDENTIFIER → isFactorToken v →
      parseIfStatement [⟨.TOKEN_IDENTIFIER, "if"⟩, ⟨.TOKEN_PAREN_OPEN, "("⟩, c,
          ⟨.TOKEN_PAREN_CLOSE, ")"⟩, t, y, ⟨.TOKEN_ASSIGN, "="⟩, v] 0 =
        .ok (.node .AST_IF "" (createNode .AST_VAR_DECL c.text)
          (.node .AST_ASSIGN t.text (createNode .AST_VAR_DECL y.text) (leaf v))) 8 ∧
      generateAssembly (.node .AST_IF "" (createNode .AST_VAR_DECL c.text)
          (.node .AST_ASSIGN t.text (createNode .AST_VAR_DECL y.text) (leaf v))) =
        .done ["IF " ++ c.text ++ " == 0 GOTO LABEL", "MOV " ++ y.text ++ ", " ++ v.text]) ∧
    parseIfStatement (tokenizeFile "if ( x ) int y = 1".data) 0 =
      .ok (.node .AST_IF "" (createNode .AST_VAR_DECL "x")
        (.node .AST_ASSIGN "int" (createNode .AST_VAR_DECL "y")
          (createNode .AST_NUMBER "1"))) 8 ∧
    generateAssembly (.node .AST_IF "" (createNode .AST_VAR_DECL "x")
        (.node .AST_ASSIGN "int" (createNode .AST_VAR_DECL "y")
          (createNode .AST_NUMBER "1"))) =
      .done ["IF x == 0 GOTO LABEL", "MOV y, 1"] := by
  refine ⟨?_, by decide, by decide⟩
  intro c t y v hc hv
  constructor
  · have m3 : ¬ isMulOp (Token.mk .TOKEN_PAREN_CLOSE ")") := by decide
    have a3 : ¬ isAddOp (Token.mk .TOKEN_PAREN_CLOSE ")") := by decide
    have e2 : parseExpression [⟨.TOKEN_IDENTIFIER, "if"⟩, ⟨.TOKEN_PAREN_OPEN, "("⟩, c,
        ⟨.TOKEN_PAREN_CLOSE, ")"⟩, t, y, ⟨.TOKEN_ASSIGN, "="⟩, v] 2 =
        .ok (createNode .AST_VAR_DECL c.text) 3 := by
      rw [← leaf_of_identifier hc]
      exact parseExpression_leaf _ 2 (Or.inr hc) m3 a3
    have e7 : parseExpression [⟨.TOKEN_IDENTIFIER, "if"⟩, ⟨.TOKEN_PAREN_OPEN, "("⟩, c,
        ⟨.TOKEN_PAREN_CLOSE, ")"⟩, t, y, ⟨.TOKEN_ASSIGN, "="⟩, v] 7 = .ok (leaf v) 8 :=
      parseExpression_leaf _ 7 hv not_isMulOp_zeroToken not_isAddOp_zeroToken
    have e4 : parseAssignment [⟨.TOKEN_IDENTIFIER, "if"⟩, ⟨.TOKEN_PAREN_OPEN, "("⟩, c,
        ⟨.TOKEN_PAREN_CLOSE, ")"⟩, t, y, ⟨.TOKEN_ASSIGN, "="⟩, v] 4 =
        .ok (.node .AST_ASSIGN t.text (createNode .AST_VAR_DECL y.text) (leaf v)) 8 := by
      rw [parseAssignment_of_assign [⟨.TOKEN_IDENTIFIER, "if"⟩, ⟨.TOKEN_PAREN_OPEN, "("⟩, c,
        ⟨.TOKEN_PAREN_CLOSE, ")"⟩, t, y, ⟨.TOKEN_ASSIGN, "="⟩, v] 4 rfl, e7]
      rfl
    rw [parseIfStatement_of_paren [⟨.TOKEN_IDENTIFIER, "if"⟩, ⟨.TOKEN_PAREN_OPEN, "("⟩, c,
      ⟨.TOKEN_PAREN_CLOSE, ")"⟩, t, y, ⟨.TOKEN_ASSIGN, "="⟩, v] 0 rfl e2 rfl]
    show (match parseAssignment [⟨.TOKEN_IDENTIFIER, "if"⟩, ⟨.TOKEN_PAREN_OPEN, "("⟩, c,
      ⟨.TOKEN_PAREN_CLOSE, ")"⟩, t, y, ⟨.TOKEN_ASSIGN, "="⟩, v] 4 with
      | .ok statement k =>
        ParseResult.ok (.node .AST_IF "" (createNode .AST_VAR_DECL c.text) statement) k
      | r => r) = _
    rw [e4]
  · have hval := value_leaf v
    cases hl : leaf v with
    | null => rw [hl] at hval; cases hval
    | node vt vv vl vr =>
      rw [hl] at hval
      cases hval
      rfl

/-- Witness for C6: the general part at the tokens `if ( flag ) int y = z`. -/
theorem parseIfStatement_then_emit_witness :
    generateAssembly (.node .AST_IF "" (createNode .AST_VAR_DECL "flag")
        (.node .AST_ASSIGN "int" (createNode .AST_VAR_DECL "y")
          (leaf ⟨.TOKEN_IDENTIFIER, "z"⟩))) =
      .done ["IF " ++ "flag" ++ " == 0 GOTO LABEL", "MOV " ++ "y" ++ ", " ++ "z"] :=
  (parseIfStatement_then_emit.1 ⟨.TOKEN_IDENTIFIER, "flag"⟩ ⟨.TOKEN_IDENTIFIER, "int"⟩
    ⟨.TOKEN_IDENTIFIER, "y"⟩ ⟨.TOKEN_IDENTIFIER, "z"⟩ rfl (by decide)).2

/-- Counterexample to C6 as stated: on the tokens of `if ( x ) y = 1` the guarded
statement is parsed as an Assign with own value `y`, left child `VarRef("=")` and no
right child, and the emitter prints `IF x == 0 GOTO LABEL` and then reads the
value of the missing right child instead of printing `MOV y, 1`. -/
theorem parseIfStatement_then_emit_counterexample :
    parseIfStatement (tokenizeFile "if ( x ) y = 1".data) 0 =
      .ok (.node .AST_IF "" (createNode .AST_VAR_DECL "x")
        (.node .AST_ASSIGN "y" (createNode .AST_VAR_DECL "=") .null)) 6 ∧
    generateAssembly (.node .AST_IF "" (createNode .AST_VAR_DECL "x")
        (.node .AST_ASSIGN "y" (createNode .AST_VAR_DECL "=") .null)) =
      .nullDeref ["IF x == 0 GOTO LABEL"] ∧
    ¬ ∃ value j, parseIfStatement (tokenizeFile "if ( x ) y = 1".data) 0 =
      .ok (.node .AST_IF "" (createNode .AST_VAR_DECL "x")
        (.node .AST_ASSIGN value (createNode .AST_VAR_DECL "y")
          (createNode .AST_NUMBER "1"))) j := by
  have e : parseIfStatement (tokenizeFile "if ( x ) y = 1".data) 0 =
      .ok (.node .AST_IF "" (createNode .AST_VAR_DECL "x")
        (.node .AST_ASSIGN "y" (createNode .AST_VAR_DECL "=") .null)) 6 := by decide
  refine ⟨e, by decide, ?_⟩
  rintro ⟨value, j, h⟩
  rw [e] at h
  simp [createNode] at h

/-- C7: non-recursive emission in both revisions. For a node of kind Assign,
Add, Sub, Mul or Div whose two children are present, `generateAssembly` prints
exactly one line, the mnemonic followed by the value fields of the two immediate
children, whatever subtrees the children carry. So
`Add(VarRef(a), Mul(VarRef(b), VarRef(c)))` prints the single line `ADD a, ` and
`Assign(VarRef(x), Add(Number(1), Number(2)))` the single line `MOV x, `. -/
theorem generateAssembly_reads_child_values :
    (∀ (type : ASTNodeType) (value : String) (lt : ASTNodeType) (lv : String)
      (ll lr : ASTNode) (rt : ASTNodeType) (rv : String) (rl rr : ASTNode),
      type ∈ [ASTNodeType.AST_ASSIGN, .AST_ADD, .AST_SUB, .AST_MUL, .AST_DIV] →
      Task7.generateAssembly (.node type value (.node lt lv ll lr) (.node rt rv rl rr)) =
          .done [mnemonic type ++ " " ++ lv ++ ", " ++ rv] ∧
        Task56.generateAssembly (.node type value (.node lt lv ll lr) (.node rt rv rl rr)) =
          .done [mnemonic type ++ " " ++ lv ++ ", " ++ rv]) ∧
    Task7.generateAssembly (.node .AST_ADD "" (createNode .AST_VAR_DECL "a")
        (.node .AST_MUL "" (createNode .AST_VAR_DECL "b") (createNode .AST_VAR_DECL "c"))) =
      .done ["ADD a, "] ∧
    Task56.generateAssembly (.node .AST_ADD "" (createNode .AST_VAR_DECL "a")
        (.node .AST_MUL "" (createNode .AST_VAR_DECL "b") (createNode .AST_VAR_DECL "c"))) =
      .done ["ADD a, "] ∧
    Task7.generateAssembly (.node .AST_ASSIGN "" (createNode .AST_VAR_DECL "x")
        (.node .AST_ADD "" (createNode .AST_NUMBER "1") (createNode .AST_NUMBER "2"))) =
      .done ["MOV x, "] ∧
    Task56.generateAssembly (.node .AST_ASSIGN "" (createNode .AST_VAR_DECL "x")
        (.node .AST_ADD "" (createNode .AST_NUMBER "1") (createNode .AST_NUMBER "2"))) =
      .done ["MOV x, "] := by
  refine ⟨?_, by decide, by decide, by decide, by decide⟩
  intro type value lt lv ll lr rt rv rl rr h
  simp only [List.mem_cons, List.mem_singleton, List.not_mem_nil, or_false] at h
  rcases h with rfl | rfl | rfl | rfl | rfl <;>
    exact ⟨rfl, rfl⟩

/-- Witness for C7: a Sub node whose right child is itself a Div node. -/
theorem generateAssembly_reads_child_values_witness :
    Task7.generateAssembly (.node .AST_SUB "" (.node .AST_NUMBER "9" .null .null)
        (.node .AST_DIV "" (createNode .AST_NUMBER "8") (createNode .AST_NUMBER "2"))) =
      .done [mnemonic .AST_SUB ++ " " ++ "9" ++ ", " ++ ""] :=
  (generateAssembly_reads_child_values.1 .AST_SUB "" .AST_NUMBER "9" .null .null .AST_DIV ""
    (createNode .AST_NUMBER "8") (createNode .AST_NUMBER "2") (by decide)).1

/-! ### C10: unexpected tokens at statement level -/

/-- C10 (the code at the failing inputs): on the tokens of `if x` the token after
`if` is no `TOKEN_PAREN_OPEN`, yet `parseIfStatement` reports no syntax error and
returns the null pointer; on the tokens of `int x 5` the token after the target
is no `TOKEN_ASSIGN`, yet `parseAssignment` reports no syntax error and returns
an Assign node without a right child, whose missing child the emitter then
reads. -/
theorem statement_parse_not_fail_fast :
    parseIfStatement (tokenizeFile "if x".data) 0 = .ok .null 1 ∧
    parseAssignment (tokenizeFile "int x 5".data) 0 =
      .ok (.node .AST_ASSIGN "int" (createNode .AST_VAR_DECL "x") .null) 2 ∧
    generateAssembly (.node .AST_ASSIGN "int" (createNode .AST_VAR_DECL "x") .null) =
      .nullDeref [] := by
  decide


/-! ### The lexer -/

theorem length_dropWhile_le (p : Char → Bool) (l : List Char) :
    (l.dropWhile p).length ≤ l.length :=
  (List.dropWhile_suffix p).length_le

theorem length_ungetc_le (l : List Char) : (ungetc l).length ≤ l.length := by
  cases l with
  | nil => exact Nat.le_refl _
  | cons ch rest =>
    simp only [ungetc]
    split <;> simp

theorem length_ungetc_dropWhile_le (p : Char → Bool) (l : List Char) :
    (ungetc (l.dropWhile p)).length ≤ l.length :=
  Nat.le_trans (length_ungetc_le _) (length_dropWhile_le p l)

/-- A character that did not end the run as 0xFF is pushed back. -/
theorem ungetc_of_head (l : List Char) (h : ∀ x, l.head? = some x → x ≠ eofChar) :
    ungetc l = l := by
  cases l with
  | nil => rfl
  | cons ch rest => simp [ungetc, h ch rfl]

/-- Fuel beyond the number of characters left does not change the lexer. -/
theorem tokenizeLoop_fuel (n : Nat) :
    ∀ (m : Nat) (token file : List Char), file.length ≤ n → file.length ≤ m →
      tokenizeLoop n token file = tokenizeLoop m token file := by
  induction n with
  | zero =>
    intro m token file hn _
    have hnil : file = [] := List.length_eq_zero.mp (Nat.le_zero.mp hn)
    subst hnil
    cases m <;> rfl
  | succ n ih =>
    intro m token file hn hm
    cases file with
    | nil => cases m <;> rfl
    | cons ch rest =>
      obtain ⟨m, rfl⟩ : ∃ k, m = k + 1 := ⟨m - 1, by simp at hm; omega⟩
      simp only [List.length_cons, Nat.add_le_add_iff_right] at hn hm
      have hr : ∀ tok, tokenizeLoop n tok rest = tokenizeLoop m tok rest :=
        fun tok => ih m tok rest hn hm
      have hd : ∀ (p : Char → Bool) tok, tokenizeLoop n tok (ungetc (rest.dropWhile p)) =
          tokenizeLoop m tok (ungetc (rest.dropWhile p)) :=
        fun p tok => ih m tok _ (Nat.le_trans (length_ungetc_dropWhile_le p rest) hn)
          (Nat.le_trans (length_ungetc_dropWhile_le p rest) hm)
      simp only [tokenizeLoop, hr, hd]

theorem tokenizeFile_nil : tokenizeFile [] = [] := rfl

/-- The body of the loop of `tokenizeFile`, entered with an empty buffer. -/
theorem tokenizeFile_cons (ch : Char) (file : List Char) :
    tokenizeFile (ch :: file) =
      if ch = eofChar then []
      else if isspace ch then tokenizeFile file
      else if isalpha ch then
        ⟨.TOKEN_IDENTIFIER, String.mk (ch :: file.takeWhile isalnum)⟩ ::
          tokenizeFile (ungetc (file.dropWhile isalnum))
      else if isdigit ch then
        ⟨.TOKEN_NUMBER, String.mk (ch :: file.takeWhile isdigit)⟩ ::
          tokenizeFile (ungetc (file.dropWhile isdigit))
      else if ch = '=' then ⟨.TOKEN_ASSIGN, String.mk [ch]⟩ :: tokenizeFile file
      else if ch = '+' ∨ ch = '-' ∨ ch = '*' ∨ ch = '/' then
        ⟨.TOKEN_OPERATOR, String.mk [ch]⟩ :: tokenizeFile file
      else if ch = '(' then ⟨.TOKEN_PAREN_OPEN, String.mk [ch]⟩ :: tokenizeFile file
      else if ch = ')' then ⟨.TOKEN_PAREN_CLOSE, String.mk [ch]⟩ :: tokenizeFile file
      else if ch = '{' ∨ ch = '}' then tokenizeFile file
      else
        ⟨.TOKEN_UNKNOWN, String.mk (if ch = nulChar then [] else [ch])⟩ ::
          tokenizeFile file := by
  have hd : ∀ (p : Char → Bool), tokenizeLoop file.length [] (ungetc (file.dropWhile p)) =
      tokenizeFile (ungetc (file.dropWhile p)) :=
    fun p => tokenizeLoop_fuel _ _ _ _ (length_ungetc_dropWhile_le p file) (Nat.le_refl _)
  simp only [tokenizeFile, List.length_cons, tokenizeLoop, hd, List.length_nil,
    gt_iff_lt, Nat.lt_irrefl, if_false, List.nil_append]

theorem ne_eofChar_of_isalnum {ch : Char} (h : isalnum ch = true) : ch ≠ eofChar := by
  intro he
  rw [he] at h
  exact absurd h (by decide)

theorem ne_nulChar_of_isalnum {ch : Char} (h : isalnum ch = true) : ch ≠ nulChar := by
  intro he
  rw [he] at h
  exact absurd h (by decide)

/-- The run with buffers returns exactly the stored tokens, and only within
the buffers. -/
theorem tokenizeFileChecked_eq_some {file : List Char} {toks : List Token}
    (h : tokenizeFileChecked file = some toks) :
    toks = tokenizeFile file ∧ withinBuffers (tokenizeFile file) := by
  unfold tokenizeFileChecked at h
  split at h
  · rename_i hw
    cases h
    exact ⟨rfl, hw⟩
  · cases h

theorem tokenizeFileChecked_of_within {file : List Char}
    (h : withinBuffers (tokenizeFile file)) :
    tokenizeFileChecked file = some (tokenizeFile file) := by
  unfold tokenizeFileChecked
  rw [if_pos h]

theorem withinBuffers_tail {t : Token} {toks : List Token} (h : withinBuffers (t :: toks)) :
    withinBuffers toks ∧ t.text.length < MAX_TOKEN_LENGTH := by
  obtain ⟨h1, h2⟩ := h
  refine ⟨⟨?_, fun x hx => h2 x (List.mem_cons_of_mem _ hx)⟩, h2 t (List.mem_cons_self _ _)⟩
  simp only [List.length_cons] at h1
  omega

theorem not_isspace_of_isalnum {ch : Char} (h : isalnum ch = true) : isspace ch = false := by
  have h32 : (' ' : Char).toNat = 32 := rfl
  simp only [isalnum, isalpha, isdigit, isspace, Bool.or_eq_true, Bool.and_eq_true,
    decide_eq_true_eq, Bool.or_eq_false_iff, Bool.and_eq_false_iff, decide_eq_false_iff_not]
    at h ⊢
  constructor
  · intro he
    rw [he, h32] at h
    omega
  · omega

theorem not_isalpha_of_isdigit {ch : Char} (h : isdigit ch = true) : isalpha ch = false := by
  simp only [isalpha, isdigit, Bool.or_eq_true, Bool.and_eq_true,
    decide_eq_true_eq, Bool.or_eq_false_iff, Bool.and_eq_false_iff, decide_eq_false_iff_not]
    at h ⊢
  omega

theorem isalnum_of_isalpha {ch : Char} (h : isalpha ch = true) : isalnum ch = true := by
  simp [isalnum, h]

theorem isalnum_of_isdigit {ch : Char} (h : isdigit ch = true) : isalnum ch = true := by
  simp [isalnum, h]

theorem takeWhile_run (p : Char → Bool) (w rest : List Char) (hw : ∀ x ∈ w, p x = true)
    (hrest : ∀ x, rest.head? = some x → p x = false) :
    (w ++ rest).takeWhile p = w := by
  rw [List.takeWhile_append_of_pos hw]
  cases rest with
  | nil => simp
  | cons x xs => simp [List.takeWhile, hrest x rfl]

theorem dropWhile_run (p : Char → Bool) (w rest : List Char) (hw : ∀ x ∈ w, p x = true)
    (hrest : ∀ x, rest.head? = some x → p x = false) :
    (w ++ rest).dropWhile p = rest := by
  rw [List.dropWhile_append_of_pos hw]
  cases rest with
  | nil => simp
  | cons x xs => simp [List.dropWhile, hrest x rfl]

/-- The identifier rule of the lexer on a run followed by its terminator. -/
theorem tokenizeFile_identifier_run (c : Char) (w rest : List Char) (hc : isalpha c = true)
    (hw : ∀ x ∈ w, isalnum x = true) (hrest : ∀ x, rest.head? = some x → isalnum x = false) :
    tokenizeFile (c :: w ++ rest) =
      ⟨.TOKEN_IDENTIFIER, String.mk (c :: w)⟩ :: tokenizeFile (ungetc rest) := by
  rw [List.cons_append, tokenizeFile_cons,
    if_neg (ne_eofChar_of_isalnum (isalnum_of_isalpha hc)),
    if_neg (by rw [not_isspace_of_isalnum (isalnum_of_isalpha hc)]; decide),
    if_pos hc, takeWhile_run isalnum w rest hw hrest, dropWhile_run isalnum w rest hw hrest]

/-- The number rule of the lexer on a run followed by its terminator. -/
theorem tokenizeFile_number_run (c : Char) (d rest : List Char) (hc : isdigit c = true)
    (hd : ∀ x ∈ d, isdigit x = true) (hrest : ∀ x, rest.head? = some x → isdigit x = false) :
    tokenizeFile (c :: d ++ rest) =
      ⟨.TOKEN_NUMBER, String.mk (c :: d)⟩ :: tokenizeFile (ungetc rest) := by
  rw [List.cons_append, tokenizeFile_cons,
    if_neg (ne_eofChar_of_isalnum (isalnum_of_isdigit hc)),
    if_neg (by rw [not_isspace_of_isalnum (isalnum_of_isdigit hc)]; decide),
    if_neg (by rw [not_isalpha_of_isdigit hc]; decide),
    if_pos hc, takeWhile_run isdigit d rest hd hrest, dropWhile_run isdigit d rest hd hrest]

/-- C8 (as amended): maximal munch within the buffers. Let `w` be a non-empty
alphanumeric run starting with a letter and `rest` be empty or start with a
character that is not alphanumeric and is not the byte 0xFF. Whenever the run of
the lexer on `w ++ rest` leaves no buffer, its tokens are `Identifier(w)`
followed by the tokens of `rest`, the lexer on `rest` leaves no buffer either,
and `w` is shorter than `MAX_TOKEN_LENGTH`. The same holds for a non-empty
digit run `d`, `rest` empty or starting with a non-digit other than 0xFF, and
`Number(d)`. The terminating character is left for the next token. The input
`abc123 + 1` gives `[Identifier "abc123", Operator "+", Number "1"]`. -/
theorem tokenizeFile_maximal_munch :
    (∀ (c : Char) (w rest : List Char) (toks : List Token), isalpha c = true →
      (∀ x ∈ w, isalnum x = true) →
      (∀ x, rest.head? = some x → isalnum x = false ∧ x ≠ eofChar) →
      tokenizeFileChecked (c :: w ++ rest) = some toks →
      toks = ⟨.TOKEN_IDENTIFIER, String.mk (c :: w)⟩ :: tokenizeFile rest ∧
        tokenizeFileChecked rest = some (tokenizeFile rest) ∧
        (c :: w).length < MAX_TOKEN_LENGTH) ∧
    (∀ (c : Char) (d rest : List Char) (toks : List Token), isdigit c = true →
      (∀ x ∈ d, isdigit x = true) →
      (∀ x, rest.head? = some x → isdigit x = false ∧ x ≠ eofChar) →
      tokenizeFileChecked (c :: d ++ rest) = some toks →
      toks = ⟨.TOKEN_NUMBER, String.mk (c :: d)⟩ :: tokenizeFile rest ∧
        tokenizeFileChecked rest = some (tokenizeFile rest) ∧
        (c :: d).length < MAX_TOKEN_LENGTH) ∧
    tokenizeFileChecked "abc123 + 1".data =
      some [⟨.TOKEN_IDENTIFIER, "abc123"⟩, ⟨.TOKEN_OPERATOR, "+"⟩, ⟨.TOKEN_NUMBER, "1"⟩] := by
  refine ⟨?_, ?_, by decide⟩
  · intro c w rest toks hc hw hrest hsome
    obtain ⟨rfl, hwithin⟩ := tokenizeFileChecked_eq_some hsome
    have e := tokenizeFile_identifier_run c w rest hc hw (fun x hx => (hrest x hx).1)
    rw [ungetc_of_head rest (fun x hx => (hrest x hx).2)] at e
    rw [e] at hwithin
    obtain ⟨ht, hlen⟩ := withinBuffers_tail hwithin
    exact ⟨e, tokenizeFileChecked_of_within ht, hlen⟩
  · intro c d rest toks hc hd hrest hsome
    obtain ⟨rfl, hwithin⟩ := tokenizeFileChecked_eq_some hsome
    have e := tokenizeFile_number_run c d rest hc hd (fun x hx => (hrest x hx).1)
    rw [ungetc_of_head rest (fun x hx => (hrest x hx).2)] at e
    rw [e] at hwithin
    obtain ⟨ht, hlen⟩ := withinBuffers_tail hwithin
    exact ⟨e, tokenizeFileChecked_of_within ht, hlen⟩

/-- Witness for C8: the identifier rule at `x1` followed by `=7`. -/
theorem tokenizeFile_maximal_munch_witness :
    (isalpha 'x' = true ∧ (∀ x ∈ ['1'], isalnum x = true) ∧
      (∀ x, ['=', '7'].head? = some x → isalnum x = false ∧ x ≠ eofChar) ∧
      tokenizeFileChecked ('x' :: ['1'] ++ ['=', '7']) =
        some [⟨.TOKEN_IDENTIFIER, "x1"⟩, ⟨.TOKEN_ASSIGN, "="⟩, ⟨.TOKEN_NUMBER, "7"⟩]) ∧
    ([⟨.TOKEN_IDENTIFIER, "x1"⟩, ⟨.TOKEN_ASSIGN, "="⟩, ⟨.TOKEN_NUMBER, "7"⟩] =
        ⟨.TOKEN_IDENTIFIER, String.mk ('x' :: ['1'])⟩ :: tokenizeFile ['=', '7'] ∧
      tokenizeFileChecked ['=', '7'] = some (tokenizeFile ['=', '7']) ∧
      ('x' :: ['1']).length < MAX_TOKEN_LENGTH) :=
  ⟨⟨by decide, by decide, by decide, by decide⟩,
    tokenizeFile_maximal_munch.1 'x' ['1'] ['=', '7']
      [⟨.TOKEN_IDENTIFIER, "x1"⟩, ⟨.TOKEN_ASSIGN, "="⟩, ⟨.TOKEN_NUMBER, "7"⟩]
      (by decide) (by decide) (by decide) (by decide)⟩

/-- Counterexample to C8 as stated: the byte 0xFF is not alphanumeric, yet on
the input `a`, 0xFF, `b` it is consumed with the run (`ungetc` of a character
equal to `EOF` pushes nothing back), so the tokens are `a` and `b`, not
`Identifier(a)` followed by the tokens of 0xFF, `b`, which are none; and on a
run of 50 letters the terminating NUL is written to `token[50]`, outside the
buffer, so the lexer has no defined result. -/
theorem tokenizeFile_maximal_munch_counterexample :
    isalpha 'a' = true ∧ isalnum eofChar = false ∧
    tokenizeFile ('a' :: [] ++ [eofChar, 'b']) =
      [⟨.TOKEN_IDENTIFIER, "a"⟩, ⟨.TOKEN_IDENTIFIER, "b"⟩] ∧
    tokenizeFile ('a' :: [] ++ [eofChar, 'b']) ≠
      ⟨.TOKEN_IDENTIFIER, String.mk ('a' :: [])⟩ :: tokenizeFile [eofChar, 'b'] ∧
    tokenizeFileChecked ('a' :: List.replicate 49 'a' ++ []) = none := by
  decide

/-! ### C9: the lexer drops only whitespace and braces -/

theorem not_isDiscarded_of_isalnum {ch : Char} (h : isalnum ch = true) :
    isDiscarded ch = false := by
  have hs := not_isspace_of_isalnum h
  have h1 : ('{' : Char).toNat = 123 := rfl
  have h2 : ('}' : Char).toNat = 125 := rfl
  simp only [isalnum, isalpha, isdigit, Bool.or_eq_true, Bool.and_eq_true,
    decide_eq_true_eq] at h
  simp only [isDiscarded, hs, Bool.false_or, Bool.or_eq_false_iff, beq_eq_false_iff_ne, ne_eq]
  constructor
  · intro he
    rw [he, h1] at h
    omega
  · intro he
    rw [he, h2] at h
    omega

theorem filter_run (p : Char → Bool) (hp : ∀ x, p x = true → isDiscarded x = false)
    (file : List Char) :
    file.filter (fun c => !isDiscarded c) =
      file.takeWhile p ++ (file.dropWhile p).filter (fun c => !isDiscarded c) := by
  conv => lhs; rw [← List.takeWhile_append_dropWhile p file]
  rw [List.filter_append]
  congr 1
  rw [List.filter_eq_self]
  intro a ha
  simp [hp a (List.mem_takeWhile_imp ha)]

theorem ungetc_dropWhile (p : Char → Bool) (file : List Char)
    (h : ∀ c ∈ file, c ≠ eofChar) : ungetc (file.dropWhile p) = file.dropWhile p := by
  apply ungetc_of_head
  intro x hx
  have hmem : x ∈ file.dropWhile p := List.mem_of_mem_head? hx
  exact h x ((List.dropWhile_suffix p).subset hmem)

/-- The texts of the tokens, concatenated, are the input without its
whitespace and braces, for every input without the bytes 0xFF and NUL. -/
theorem tokenizeFile_concat (n : Nat) :
    ∀ (input : List Char), input.length ≤ n →
      (∀ c ∈ input, c ≠ eofChar ∧ c ≠ nulChar) →
      (tokenizeFile input).flatMap (fun t => t.text.data) =
        input.filter (fun c => !isDiscarded c) := by
  induction n with
  | zero =>
    intro input hn _
    have hnil : input = [] := List.length_eq_zero.mp (Nat.le_zero.mp hn)
    subst hnil
    rfl
  | succ n ih =>
    intro input hn hin
    cases input with
    | nil => rfl
    | cons ch file =>
      simp only [List.length_cons, Nat.add_le_add_iff_right] at hn
      have hch := hin ch (List.mem_cons_self _ _)
      have hin' : ∀ c ∈ file, c ≠ eofChar ∧ c ≠ nulChar :=
        fun c hc => hin c (List.mem_cons_of_mem _ hc)
      have hfile := ih file hn hin'
      have hdrop : ∀ p : Char → Bool,
          (tokenizeFile (ungetc (file.dropWhile p))).flatMap (fun t => t.text.data) =
            (file.dropWhile p).filter (fun c => !isDiscarded c) := by
        intro p
        rw [ungetc_dropWhile p file (fun c hc => (hin' c hc).1)]
        exact ih _ (Nat.le_trans (length_dropWhile_le p file) hn)
          (fun c hc => hin' c ((List.dropWhile_suffix p).subset hc))
      rw [tokenizeFile_cons, if_neg hch.1]
      by_cases hsp : isspace ch = true
      · rw [if_pos hsp, hfile]
        simp [List.filter_cons, isDiscarded, hsp]
      rw [if_neg hsp]
      by_cases hal : isalpha ch = true
      · rw [if_pos hal, List.flatMap_cons, hdrop isalnum, List.filter_cons,
          not_isDiscarded_of_isalnum (isalnum_of_isalpha hal),
          filter_run isalnum (fun x hx => not_isDiscarded_of_isalnum hx) file]
        rfl
      rw [if_neg hal]
      by_cases hdg : isdigit ch = true
      · rw [if_pos hdg, List.flatMap_cons, hdrop isdigit, List.filter_cons,
          not_isDiscarded_of_isalnum (isalnum_of_isdigit hdg),
          filter_run isdigit
            (fun x hx => not_isDiscarded_of_isalnum (isalnum_of_isdigit hx)) file]
        rfl
      rw [if_neg hdg]
      have hsp' : isspace ch = false := by simpa using hsp
      by_cases hbr : ch = '{' ∨ ch = '}'
      · have hne : ¬ ch = '=' ∧ ¬ (ch = '+' ∨ ch = '-' ∨ ch = '*' ∨ ch = '/') ∧
            ¬ ch = '(' ∧ ¬ ch = ')' := by
          rcases hbr with rfl | rfl <;> decide
        rw [if_neg hne.1, if_neg hne.2.1, if_neg hne.2.2.1, if_neg hne.2.2.2, if_pos hbr,
          hfile, List.filter_cons]
        have hd : isDiscarded ch = true := by
          rcases hbr with rfl | rfl <;> decide
        simp [hd]
      · have hd : isDiscarded ch = false := by
          simp only [not_or] at hbr
          simp [isDiscarded, hsp', hbr.1, hbr.2]
        rw [if_neg hbr, List.filter_cons, hd, if_neg hch.2]
        simp only [Bool.not_false, if_true]
        split_ifs <;> simp [List.flatMap_cons, hfile]

theorem ne_eof_nul_of_inAlphabet {c : Char} (h : inAlphabet c) :
    c ≠ eofChar ∧ c ≠ nulChar := by
  constructor
  · intro he
    rw [he] at h
    exact absurd h (by decide)
  · intro he
    rw [he] at h
    exact absurd h (by decide)

/-- C9: lossless partition. For every input made only of letters, digits,
whitespace and the symbols `= + - * / ( ) { }`, the texts of the produced
tokens, concatenated in order, are the input with exactly its whitespace and
brace characters removed: nothing else is dropped, duplicated or reordered. -/
theorem tokenizeFile_lossless (input : List Char) (h : ∀ c ∈ input, inAlphabet c) :
    (tokenizeFile input).flatMap (fun t => t.text.data) =
      input.filter (fun c => !isDiscarded c) :=
  tokenizeFile_concat input.length input (Nat.le_refl _)
    (fun c hc => ne_eof_nul_of_inAlphabet (h c hc))

/-- Witness for C9: the input `a1 = {b}` with a newline at the end. -/
theorem tokenizeFile_lossless_witness :
    (tokenizeFile ['a', '1', ' ', '=', ' ', '{', 'b', '}', '\n']).flatMap
        (fun t => t.text.data) =
      ['a', '1', ' ', '=', ' ', '{', 'b', '}', '\n'].filter (fun c => !isDiscarded c) :=
  tokenizeFile_lossless ['a', '1', ' ', '=', ' ', '{', 'b', '}', '\n'] (by decide)


/-! ### C11: end of input inside a grammar rule -/

theorem tokenAt_of_length_le (tokens : List Token) (i : Nat) (h : tokens.length ≤ i) :
    tokenAt tokens i = zeroToken := by
  simp [tokenAt, List.getD, List.getElem?_eq_none h]

/-- C11 (as amended): end of input inside a grammar rule. The parser has no
end-of-input check. At every cursor at or past the token count whose reads stay
inside the array `tokens[MAX_TOKENS]`, the entry read is the zero-initialised
one, an Identifier with empty text, so the parser raises no error and returns
`VarRef("")` with the cursor advanced by one: `parseFactor`, which reads
`tokens[cursor]`, for `cursor < MAX_TOKENS`, and `parseTerm` and
`parseExpression`, which also read `tokens[cursor + 1]`, for
`cursor + 1 < MAX_TOKENS`. The expression tokens of `1 +` give
`Add(Number(1), VarRef(""))` at cursor 3, and the statement tokens of `int x =`
give `Assign(VarRef(x), VarRef(""))` at cursor 4. -/
theorem parse_past_end_reads_zero_token :
    (∀ (tokens : List Token) (i : Nat), tokens.length ≤ i → i < MAX_TOKENS →
      parseFactor tokens i = .ok (createNode .AST_VAR_DECL "") (i + 1)) ∧
    (∀ (tokens : List Token) (i : Nat), tokens.length ≤ i → i + 1 < MAX_TOKENS →
      parseTerm tokens i = .ok (createNode .AST_VAR_DECL "") (i + 1) ∧
      parseExpression tokens i = .ok (createNode .AST_VAR_DECL "") (i + 1)) ∧
    parseExpression (tokenizeFile "1 +".data) 0 =
      .ok (.node .AST_ADD "" (createNode .AST_NUMBER "1") (createNode .AST_VAR_DECL "")) 3 ∧
    parseAssignment (tokenizeFile "int x =".data) 0 =
      .ok (.node .AST_ASSIGN "int" (createNode .AST_VAR_DECL "x")
        (createNode .AST_VAR_DECL "")) 4 := by
  refine ⟨?_, ?_, by decide, by decide⟩
  · intro tokens i h _
    have h0 := tokenAt_of_length_le tokens i h
    have hf : isFactorToken (tokenAt tokens i) := by rw [h0]; decide
    have hl : leaf (tokenAt tokens i) = createNode .AST_VAR_DECL "" := by rw [h0]; rfl
    rw [parseFactor_leaf tokens i hf, hl]
  · intro tokens i h _
    have h0 := tokenAt_of_length_le tokens i h
    have h1 := tokenAt_of_length_le tokens (i + 1) (by omega)
    have hf : isFactorToken (tokenAt tokens i) := by rw [h0]; decide
    have hm : ¬ isMulOp (tokenAt tokens (i + 1)) := by rw [h1]; exact not_isMulOp_zeroToken
    have ha : ¬ isAddOp (tokenAt tokens (i + 1)) := by rw [h1]; exact not_isAddOp_zeroToken
    have hl : leaf (tokenAt tokens i) = createNode .AST_VAR_DECL "" := by rw [h0]; rfl
    constructor
    · rw [parseTerm_leaf tokens i hf hm, hl]
    · rw [parseExpression_leaf tokens i hf hm ha, hl]

/-- Witness for C11: the general part at the one token of `7`, cursor 1, where
the reads are `tokens[1]` and `tokens[2]`. -/
theorem parse_past_end_reads_zero_token_witness :
    (tokenizeFile "7".data).length ≤ 1 ∧ 1 + 1 < MAX_TOKENS ∧
    parseExpression (tokenizeFile "7".data) 1 = .ok (createNode .AST_VAR_DECL "") (1 + 1) :=
  ⟨by decide, by decide,
    (parse_past_end_reads_zero_token.2.1 (tokenizeFile "7".data) 1 (by decide) (by decide)).2⟩

/-- Counterexample to C11 as stated: on the lexer's tokens for `1 +` the cursor
reaches the token count right after the operator, and `parseExpression` returns
a tree instead of a syntax error; the same happens right after the `=` of
`int x =`. -/
theorem parse_end_of_input_counterexample :
    (¬ ∃ msg, parseExpression (tokenizeFile "1 +".data) 0 = .syntaxError msg) ∧
    (¬ ∃ msg, parseExpression (tokenizeFile "int x =".data) 3 = .syntaxError msg) := by
  have e1 : parseExpression (tokenizeFile "1 +".data) 0 =
      .ok (.node .AST_ADD "" (createNode .AST_NUMBER "1") (createNode .AST_VAR_DECL "")) 3 := by
    decide
  have e2 : parseExpression (tokenizeFile "int x =".data) 3 =
      .ok (createNode .AST_VAR_DECL "") 4 := by decide
  constructor
  · rintro ⟨msg, h⟩
    rw [e1] at h
    cases h
  · rintro ⟨msg, h⟩
    rw [e2] at h
    cases h

/-! ### C12: shape of the trees the statement parsers return -/

/-- C12 (the code at the failing input): on the lexer's tokens for `int x 5`
`parseAssignment` returns an Assign node without a right child, which breaks
the shape rule of the data model, and `generateAssembly` reads the value of
that missing child. -/
theorem parseAssignment_returns_rightless_assign :
    parseAssignment (tokenizeFile "int x 5".data) 0 =
      .ok (.node .AST_ASSIGN "int" (createNode .AST_VAR_DECL "x") .null) 2 ∧
    wellShaped (.node .AST_ASSIGN "int" (createNode .AST_VAR_DECL "x") .null) = false ∧
    generateAssembly (.node .AST_ASSIGN "int" (createNode .AST_VAR_DECL "x") .null) =
      .nullDeref [] ∧
    (main "int x 5".data).outcome = .crashed := by
  decide

end Task7

namespace Task56

/-! ### C13: unexpected tokens in the earliest revision -/

/-- C13 (the code at the failing input): in the earliest revision a missing `(`
makes `parseIfStatement` return the null pointer, which the emitter passes
through without output; but a missing `=` makes `parseAssignment` return an
Assign node without a right child, not a null result, and `generateAssembly`
reads the value of that missing child. -/
theorem parseAssignment_missing_assign_not_harmless :
    parseIfStatement (tokenizeFile "if x".data) 0 = .ok .null 1 ∧
    generateAssembly .null = .done [] ∧
    parseAssignment (tokenizeFile "int x 5".data) 0 =
      .ok (.node .AST_ASSIGN "int" (createNode .AST_VAR_DECL "x") .null) 2 ∧
    generateAssembly (.node .AST_ASSIGN "int" (createNode .AST_VAR_DECL "x") .null) =
      .nullDeref [] := by
  decide

end Task56

namespace Task7

/-! ### C14: the cursor only moves forward -/

theorem parseTermWhile_mono {tokens : List Token} {left nd : ASTNode} {i j : Nat}
    (h : parseTermWhile tokens left i = .ok nd j) : i ≤ j :=
  (fuel_progress _).2.1 _ _ _ _ _ h

theorem parseExpressionWhile_mono {tokens : List Token} {left nd : ASTNode} {i j : Nat}
    (h : parseExpressionWhile tokens left i = .ok nd j) : i ≤ j :=
  (fuel_progress _).2.2.2.1 _ _ _ _ _ h

theorem parseAssignment_progress {tokens : List Token} {c j : Nat} {nd : ASTNode}
    (h : parseAssignment tokens c = .ok nd j) : c < j := by
  simp only [parseAssignment] at h
  split at h
  · cases he : parseExpression tokens (c + 1 + 1 + 1) with
    | ok right k =>
      rw [he] at h
      have := parseExpression_progress he
      cases h
      omega
    | syntaxError msg => rw [he] at h; cases h
    | outOfFuel => rw [he] at h; cases h
  · cases h
    omega

theorem parseAssignment_ne_outOfFuel (tokens : List Token) (c : Nat) :
    parseAssignment tokens c ≠ .outOfFuel := by
  simp only [parseAssignment]
  split
  · have hne := parseExpression_ne_outOfFuel tokens (c + 1 + 1 + 1)
    cases he : parseExpression tokens (c + 1 + 1 + 1) with
    | ok right k => exact ParseResult.noConfusion
    | syntaxError msg => exact ParseResult.noConfusion
    | outOfFuel => exact absurd he hne
  · exact ParseResult.noConfusion

theorem parseIfStatement_progress {tokens : List Token} {c j : Nat} {nd : ASTNode}
    (h : parseIfStatement tokens c = .ok nd j) : c < j := by
  simp only [parseIfStatement] at h
  split at h
  · cases he : parseExpression tokens (c + 1 + 1) with
    | ok cond k =>
      rw [he] at h
      have hk := parseExpression_progress he
      simp only at h
      split at h
      · cases h
      · cases ha : parseAssignment tokens (k + 1) with
        | ok st m =>
          rw [ha] at h
          have := parseAssignment_progress ha
          cases h
          omega
        | syntaxError msg => rw [ha] at h; cases h
        | outOfFuel => rw [ha] at h; cases h
    | syntaxError msg => rw [he] at h; cases h
    | outOfFuel => rw [he] at h; cases h
  · cases h
    omega

theorem parseIfStatement_ne_outOfFuel (tokens : List Token) (c : Nat) :
    parseIfStatement tokens c ≠ .outOfFuel := by
  simp only [parseIfStatement]
  split
  · have hne := parseExpression_ne_outOfFuel tokens (c + 1 + 1)
    cases he : parseExpression tokens (c + 1 + 1) with
    | ok cond k =>
      simp only
      split
      · exact ParseResult.noConfusion
      · have hna := parseAssignment_ne_outOfFuel tokens (k + 1)
        cases ha : parseAssignment tokens (k + 1) with
        | ok st m => exact ParseResult.noConfusion
        | syntaxError msg => exact ParseResult.noConfusion
        | outOfFuel => exact absurd ha hna
    | syntaxError msg => exact ParseResult.noConfusion
    | outOfFuel => exact absurd he hne
  · exact ParseResult.noConfusion

/-- The driver loop parses at most one statement per remaining token and does
not run out of fuel when given one unit per remaining token. -/
theorem mainLoop_parses (fuel : Nat) :
    ∀ (tokens : List Token) (index : Nat), tokens.length - index ≤ fuel →
      (mainLoop fuel tokens index).parses ≤ tokens.length - index ∧
      (mainLoop fuel tokens index).outcome ≠ .outOfFuel := by
  induction fuel with
  | zero =>
    intro tokens index h
    have hlt : ¬ index < tokens.length := by omega
    simp [mainLoop, hlt]
  | succ fuel ih =>
    intro tokens index h
    simp only [mainLoop]
    by_cases hlt : index < tokens.length
    · rw [if_pos hlt]
      have hprog : ∀ nd j, (if (tokenAt tokens index).text = "if" then
          parseIfStatement tokens index else parseAssignment tokens index) = .ok nd j →
          index < j := by
        intro nd j hr
        split at hr
        · exact parseIfStatement_progress hr
        · exact parseAssignment_progress hr
      have hfuel : (if (tokenAt tokens index).text = "if" then
          parseIfStatement tokens index else parseAssignment tokens index) ≠ .outOfFuel := by
        split
        · exact parseIfStatement_ne_outOfFuel tokens index
        · exact parseAssignment_ne_outOfFuel tokens index
      cases hr : (if (tokenAt tokens index).text = "if" then
          parseIfStatement tokens index else parseAssignment tokens index) with
      | ok ast j =>
        have hj := hprog ast j hr
        simp only
        cases hg : generateAssembly ast with
        | done lines =>
          have := ih tokens j (by omega)
          simp only
          constructor
          · omega
          · exact this.2
        | nullDeref lines =>
          simp only
          constructor
          · omega
          · exact Outcome.noConfusion
      | syntaxError msg =>
        simp only
        constructor
        · omega
        · exact Outcome.noConfusion
      | outOfFuel => exact absurd hr hfuel
    · rw [if_neg hlt]
      simp

/-- C14: cursor monotonicity. Each of `parseFactor`, `parseTerm`,
`parseExpression`, `parseAssignment` and `parseIfStatement` that returns leaves
the cursor strictly greater than the one it started from, and the two loops
inside `parseTerm` and `parseExpression` never move it back; therefore the
driver loop `while (index < tokenCount)` performs at most `tokenCount`
statement parses (and the fuel of the model is never exhausted). -/
theorem cursor_monotone :
    (∀ (tokens : List Token) (c : Nat) (nd : ASTNode) (j : Nat),
      (parseFactor tokens c = .ok nd j → c < j) ∧
      (parseTerm tokens c = .ok nd j → c < j) ∧
      (parseExpression tokens c = .ok nd j → c < j) ∧
      (parseAssignment tokens c = .ok nd j → c < j) ∧
      (parseIfStatement tokens c = .ok nd j → c < j) ∧
      (∀ left, parseTermWhile tokens left c = .ok nd j → c ≤ j) ∧
      (∀ left, parseExpressionWhile tokens left c = .ok nd j → c ≤ j)) ∧
    (∀ file : List Char, (main file).parses ≤ (tokenizeFile file).length ∧
      (main file).outcome ≠ .outOfFuel) := by
  constructor
  · intro tokens c nd j
    exact ⟨parseFactor_progress, parseTerm_progress, parseExpression_progress,
      parseAssignment_progress, parseIfStatement_progress,
      fun _ => parseTermWhile_mono, fun _ => parseExpressionWhile_mono⟩
  · intro file
    have := mainLoop_parses (tokenizeFile file).length (tokenizeFile file) 0 (by omega)
    simpa [main] using this

/-- Witness for C14: `parseAssignment` on the tokens of `int x = 5`. -/
theorem cursor_monotone_witness :
    parseAssignment (tokenizeFile "int x = 5".data) 0 =
      .ok (.node .AST_ASSIGN "int" (createNode .AST_VAR_DECL "x")
        (createNode .AST_NUMBER "5")) 4 ∧ 0 < 4 :=
  ⟨by decide, (cursor_monotone.1 (tokenizeFile "int x = 5".data) 0
    (.node .AST_ASSIGN "int" (createNode .AST_VAR_DECL "x") (createNode .AST_NUMBER "5"))
    4).2.2.2.1 (by decide)⟩

/-! ### C20: termination of the mutually recursive parser -/

/-- C20: termination. For every token list and cursor, `parseFactor`,
`parseTerm` and `parseExpression` end with a tree or a syntax error: with three
units of fuel per remaining token plus the depth of the call chain, and with any
larger fuel, the fuelled bodies return that same result and never exhaust the
fuel. The recursion is well-founded on the tokens left after the cursor: a
`TOKEN_PAREN_OPEN`, the only token behind which `parseFactor` calls
`parseExpression`, is never read at or past the token count, so the recursive
call at `index + 1` has fewer tokens left. -/
theorem parser_terminates :
    ∀ (tokens : List Token) (i : Nat),
      (∀ m, 3 * (tokens.length - i) + 1 ≤ m →
        parseFactorFuel m tokens i = parseFactor tokens i) ∧
      ((∃ nd j, parseFactor tokens i = .ok nd j) ∨
        ∃ msg, parseFactor tokens i = .syntaxError msg) ∧
      (∀ m, 3 * (tokens.length - i) + 2 ≤ m →
        parseTermFuel m tokens i = parseTerm tokens i) ∧
      ((∃ nd j, parseTerm tokens i = .ok nd j) ∨
        ∃ msg, parseTerm tokens i = .syntaxError msg) ∧
      (∀ m, 3 * (tokens.length - i) + 3 ≤ m →
        parseExpressionFuel m tokens i = parseExpression tokens i) ∧
      ((∃ nd j, parseExpression tokens i = .ok nd j) ∨
        ∃ msg, parseExpression tokens i = .syntaxError msg) ∧
      ((tokenAt tokens i).type = .TOKEN_PAREN_OPEN →
        tokens.length - (i + 1) < tokens.length - i) := by
  intro tokens i
  refine ⟨fun m h => parseFactorFuel_eq tokens i m h, ?_,
    fun m h => parseTermFuel_eq tokens i m h, ?_,
    fun m h => parseExpressionFuel_eq tokens i m h, ?_, ?_⟩
  · have hne := parseFactor_ne_outOfFuel tokens i
    cases he : parseFactor tokens i with
    | ok nd j => exact Or.inl ⟨nd, j, rfl⟩
    | syntaxError msg => exact Or.inr ⟨msg, rfl⟩
    | outOfFuel => exact absurd he hne
  · have hne := parseTerm_ne_outOfFuel tokens i
    cases he : parseTerm tokens i with
    | ok nd j => exact Or.inl ⟨nd, j, rfl⟩
    | syntaxError msg => exact Or.inr ⟨msg, rfl⟩
    | outOfFuel => exact absurd he hne
  · have hne := parseExpression_ne_outOfFuel tokens i
    cases he : parseExpression tokens i with
    | ok nd j => exact Or.inl ⟨nd, j, rfl⟩
    | syntaxError msg => exact Or.inr ⟨msg, rfl⟩
    | outOfFuel => exact absurd he hne
  · intro hp
    have := lt_length_of_type_ne tokens i (by rw [hp]; decide)
    omega

/-- Witness for C20: the nested tokens of `((1))` at cursor 0 with fuel 100. -/
theorem parser_terminates_witness :
    parseExpressionFuel 100 (tokenizeFile "((1))".data) 0 =
      parseExpression (tokenizeFile "((1))".data) 0 :=
  (parser_terminates (tokenizeFile "((1))".data) 0).2.2.2.2.1 100 (by decide)


/-! ### C15, C16: the tokens the lexer produces -/

theorem isalnum_eq_false {ch : Char} (h1 : ¬ isalpha ch = true) (h2 : ¬ isdigit ch = true) :
    isalnum ch = false := by
  simp only [Bool.not_eq_true] at h1 h2
  simp [isalnum, h1, h2]

/-- Every token the lexer stores is well formed for its kind, and its kind is
neither `TOKEN_IF` nor `TOKEN_EOF`. -/
theorem tokenizeFile_tokens (n : Nat) :
    ∀ (file : List Char), file.length ≤ n → ∀ t ∈ tokenizeFile file,
      wellFormed t ∧ t.type ≠ .TOKEN_IF ∧ t.type ≠ .TOKEN_EOF := by
  induction n with
  | zero =>
    intro file hn t ht
    have hnil : file = [] := List.length_eq_zero.mp (Nat.le_zero.mp hn)
    subst hnil
    simp [tokenizeFile_nil] at ht
  | succ n ih =>
    intro file hn t ht
    cases file with
    | nil => simp [tokenizeFile_nil] at ht
    | cons ch file =>
      simp only [List.length_cons, Nat.add_le_add_iff_right] at hn
      have hfile := ih file hn
      have hdrop : ∀ p : Char → Bool, ∀ t ∈ tokenizeFile (ungetc (file.dropWhile p)),
          wellFormed t ∧ t.type ≠ .TOKEN_IF ∧ t.type ≠ .TOKEN_EOF :=
        fun p => ih _ (Nat.le_trans (length_ungetc_dropWhile_le p file) hn)
      rw [tokenizeFile_cons] at ht
      by_cases heof : ch = eofChar
      · rw [if_pos heof] at ht
        simp at ht
      rw [if_neg heof] at ht
      by_cases hsp : isspace ch = true
      · rw [if_pos hsp] at ht
        exact hfile t ht
      rw [if_neg hsp] at ht
      by_cases hal : isalpha ch = true
      · rw [if_pos hal, List.mem_cons] at ht
        rcases ht with rfl | ht
        · refine ⟨?_, by simp, by simp⟩
          exact ⟨ch, file.takeWhile isalnum, rfl, hal, fun x hx => List.mem_takeWhile_imp hx⟩
        · exact hdrop _ t ht
      rw [if_neg hal] at ht
      by_cases hdg : isdigit ch = true
      · rw [if_pos hdg, List.mem_cons] at ht
        rcases ht with rfl | ht
        · refine ⟨?_, by simp, by simp⟩
          exact ⟨ch, file.takeWhile isdigit, rfl, hdg, fun x hx => List.mem_takeWhile_imp hx⟩
        · exact hdrop _ t ht
      rw [if_neg hdg] at ht
      by_cases h1 : ch = '='
      · rw [if_pos h1, List.mem_cons] at ht
        rcases ht with rfl | ht
        · subst h1
          exact ⟨rfl, by decide, by decide⟩
        · exact hfile t ht
      rw [if_neg h1] at ht
      by_cases h2 : ch = '+' ∨ ch = '-' ∨ ch = '*' ∨ ch = '/'
      · rw [if_pos h2, List.mem_cons] at ht
        rcases ht with rfl | ht
        · refine ⟨?_, by simp, by simp⟩
          rcases h2 with rfl | rfl | rfl | rfl
          · exact Or.inl rfl
          · exact Or.inr (Or.inl rfl)
          · exact Or.inr (Or.inr (Or.inl rfl))
          · exact Or.inr (Or.inr (Or.inr rfl))
        · exact hfile t ht
      rw [if_neg h2] at ht
      by_cases h3 : ch = '('
      · rw [if_pos h3, List.mem_cons] at ht
        rcases ht with rfl | ht
        · subst h3
          exact ⟨rfl, by decide, by decide⟩
        · exact hfile t ht
      rw [if_neg h3] at ht
      by_cases h4 : ch = ')'
      · rw [if_pos h4, List.mem_cons] at ht
        rcases ht with rfl | ht
        · subst h4
          exact ⟨rfl, by decide, by decide⟩
        · exact hfile t ht
      rw [if_neg h4] at ht
      by_cases h5 : ch = '{' ∨ ch = '}'
      · rw [if_pos h5] at ht
        exact hfile t ht
      rw [if_neg h5, List.mem_cons] at ht
      rcases ht with rfl | ht
      · refine ⟨?_, by simp, by simp⟩
        by_cases hnul : ch = nulChar
        · exact Or.inl (by rw [if_pos hnul])
        · refine Or.inr ⟨ch, by rw [if_neg hnul], hnul, by simpa using hsp,
            isalnum_eq_false hal hdg, ?_⟩
          simp only [not_or] at h2 h5
          simp [h1, h2.1, h2.2.1, h2.2.2.1, h2.2.2.2, h3, h4, h5.1, h5.2]
      · exact hfile t ht

/-- The four shapes of one turn of the loop on a character other than the byte
0xFF: nothing stored (whitespace, braces), an identifier, a number, or one
token with a text of at most one character. -/
theorem tokenizeFile_cons_cases (ch : Char) (hch : ch ≠ eofChar) :
    (isalnum ch = false ∧ ∀ file, tokenizeFile (ch :: file) = tokenizeFile file) ∨
    (isalpha ch = true ∧ ∀ file, tokenizeFile (ch :: file) =
      ⟨.TOKEN_IDENTIFIER, String.mk (ch :: file.takeWhile isalnum)⟩ ::
        tokenizeFile (ungetc (file.dropWhile isalnum))) ∨
    (isdigit ch = true ∧ ∀ file, tokenizeFile (ch :: file) =
      ⟨.TOKEN_NUMBER, String.mk (ch :: file.takeWhile isdigit)⟩ ::
        tokenizeFile (ungetc (file.dropWhile isdigit))) ∨
    (isalnum ch = false ∧ ∃ t : Token, t.text.length ≤ 1 ∧
      ∀ file, tokenizeFile (ch :: file) = t :: tokenizeFile file) := by
  by_cases hal : isalpha ch = true
  · have hsp : ¬ isspace ch = true := by
      rw [not_isspace_of_isalnum (isalnum_of_isalpha hal)]
      exact Bool.false_ne_true
    refine Or.inr (Or.inl ⟨hal, fun file => ?_⟩)
    rw [tokenizeFile_cons, if_neg hch, if_neg hsp, if_pos hal]
  by_cases hdg : isdigit ch = true
  · have hsp : ¬ isspace ch = true := by
      rw [not_isspace_of_isalnum (isalnum_of_isdigit hdg)]
      exact Bool.false_ne_true
    refine Or.inr (Or.inr (Or.inl ⟨hdg, fun file => ?_⟩))
    rw [tokenizeFile_cons, if_neg hch, if_neg hsp, if_neg hal, if_pos hdg]
  have hna := isalnum_eq_false hal hdg
  by_cases hsp : isspace ch = true
  · refine Or.inl ⟨hna, fun file => ?_⟩
    rw [tokenizeFile_cons, if_neg hch, if_pos hsp]
  by_cases h1 : ch = '='
  · refine Or.inr (Or.inr (Or.inr ⟨hna, ⟨.TOKEN_ASSIGN, String.mk [ch]⟩, Nat.le_refl 1,
      fun file => ?_⟩))
    rw [tokenizeFile_cons, if_neg hch, if_neg hsp, if_neg hal, if_neg hdg, if_pos h1]
  by_cases h2 : ch = '+' ∨ ch = '-' ∨ ch = '*' ∨ ch = '/'
  · refine Or.inr (Or.inr (Or.inr ⟨hna, ⟨.TOKEN_OPERATOR, String.mk [ch]⟩, Nat.le_refl 1,
      fun file => ?_⟩))
    rw [tokenizeFile_cons, if_neg hch, if_neg hsp, if_neg hal, if_neg hdg, if_neg h1,
      if_pos h2]
  by_cases h3 : ch = '('
  · refine Or.inr (Or.inr (Or.inr ⟨hna, ⟨.TOKEN_PAREN_OPEN, String.mk [ch]⟩, Nat.le_refl 1,
      fun file => ?_⟩))
    rw [tokenizeFile_cons, if_neg hch, if_neg hsp, if_neg hal, if_neg hdg, if_neg h1,
      if_neg h2, if_pos h3]
  by_cases h4 : ch = ')'
  · refine Or.inr (Or.inr (Or.inr ⟨hna, ⟨.TOKEN_PAREN_CLOSE, String.mk [ch]⟩, Nat.le_refl 1,
      fun file => ?_⟩))
    rw [tokenizeFile_cons, if_neg hch, if_neg hsp, if_neg hal, if_neg hdg, if_neg h1,
      if_neg h2, if_neg h3, if_pos h4]
  by_cases h5 : ch = '{' ∨ ch = '}'
  · refine Or.inl ⟨hna, fun file => ?_⟩
    rw [tokenizeFile_cons, if_neg hch, if_neg hsp, if_neg hal, if_neg hdg, if_neg h1,
      if_neg h2, if_neg h3, if_neg h4, if_pos h5]
  refine Or.inr (Or.inr (Or.inr
    ⟨hna, ⟨.TOKEN_UNKNOWN, String.mk (if ch = nulChar then [] else [ch])⟩, ?_, fun file => ?_⟩))
  · show (if ch = nulChar then [] else [ch]).length ≤ 1
    by_cases hnul : ch = nulChar
    · rw [if_pos hnul]
      exact Nat.zero_le 1
    · rw [if_neg hnul]
      exact Nat.le_refl 1
  · rw [tokenizeFile_cons, if_neg hch, if_neg hsp, if_neg hal, if_neg hdg, if_neg h1,
      if_neg h2, if_neg h3, if_neg h4, if_neg h5]

/-- The lexer stores at most one token per byte and no text longer than the
input. -/
theorem tokenizeFile_sizes (n : Nat) :
    ∀ (file : List Char), file.length ≤ n →
      (tokenizeFile file).length ≤ file.length ∧
      ∀ t ∈ tokenizeFile file, t.text.length ≤ file.length := by
  induction n with
  | zero =>
    intro file hn
    have hnil : file = [] := List.length_eq_zero.mp (Nat.le_zero.mp hn)
    subst hnil
    rw [tokenizeFile_nil]
    exact ⟨Nat.le_refl _, fun t ht => absurd ht (List.not_mem_nil t)⟩
  | succ n ih =>
    intro file hn
    cases file with
    | nil =>
      rw [tokenizeFile_nil]
      exact ⟨Nat.le_refl _, fun t ht => absurd ht (List.not_mem_nil t)⟩
    | cons ch file =>
      simp only [List.length_cons, Nat.add_le_add_iff_right] at hn
      obtain ⟨hlen, htext⟩ := ih file hn
      have hdrop : ∀ p : Char → Bool,
          (tokenizeFile (ungetc (file.dropWhile p))).length ≤ file.length ∧
          ∀ t ∈ tokenizeFile (ungetc (file.dropWhile p)), t.text.length ≤ file.length := by
        intro p
        have hle := length_ungetc_dropWhile_le p file
        obtain ⟨h1, h2⟩ := ih _ (Nat.le_trans hle hn)
        exact ⟨Nat.le_trans h1 hle, fun t ht => Nat.le_trans (h2 t ht) hle⟩
      have htake : ∀ p : Char → Bool, (file.takeWhile p).length ≤ file.length :=
        fun p => (List.takeWhile_prefix p).length_le
      have hrun : ∀ (k : TokenType) (p : Char → Bool),
          ((⟨k, String.mk (ch :: file.takeWhile p)⟩ : Token) ::
              tokenizeFile (ungetc (file.dropWhile p))).length ≤ (ch :: file).length ∧
          ∀ t ∈ (⟨k, String.mk (ch :: file.takeWhile p)⟩ : Token) ::
              tokenizeFile (ungetc (file.dropWhile p)), t.text.length ≤ (ch :: file).length := by
        intro k p
        refine ⟨Nat.succ_le_succ (hdrop p).1, fun t ht => ?_⟩
        rcases List.mem_cons.mp ht with rfl | ht
        · exact Nat.succ_le_succ (htake p)
        · exact Nat.le_succ_of_le ((hdrop p).2 t ht)
      by_cases hch : ch = eofChar
      · rw [tokenizeFile_cons, if_pos hch]
        exact ⟨Nat.zero_le _, fun t ht => absurd ht (List.not_mem_nil t)⟩
      rcases tokenizeFile_cons_cases ch hch with ⟨_, h⟩ | ⟨_, h⟩ | ⟨_, h⟩ | ⟨_, t0, ht0, h⟩
      · rw [h file]
        exact ⟨Nat.le_succ_of_le hlen, fun t ht => Nat.le_succ_of_le (htext t ht)⟩
      · rw [h file]
        exact hrun _ _
      · rw [h file]
        exact hrun _ _
      · rw [h file]
        refine ⟨Nat.succ_le_succ hlen, fun t ht => ?_⟩
        rcases List.mem_cons.mp ht with rfl | ht
        · exact Nat.le_trans ht0 (Nat.succ_le_succ (Nat.zero_le _))
        · exact Nat.le_succ_of_le (htext t ht)

/-- Pushing back leaves a suffix of what was read. -/
theorem ungetc_suffix (l : List Char) : ungetc l <:+ l := by
  cases l with
  | nil => exact List.suffix_refl _
  | cons a l =>
    show (if a = eofChar then l else a :: l) <:+ a :: l
    by_cases h : a = eofChar
    · rw [if_pos h]
      exact List.suffix_cons a l
    · rw [if_neg h]

/-- Every text the lexer stores has at most one character or is a run of
consecutive alphanumeric characters of the input. -/
theorem tokenizeFile_texts (n : Nat) :
    ∀ (file : List Char), file.length ≤ n → ∀ t ∈ tokenizeFile file,
      t.text.length ≤ 1 ∨
        (t.text.data <:+: file ∧ ∀ c ∈ t.text.data, isalnum c = true) := by
  induction n with
  | zero =>
    intro file hn t ht
    have hnil : file = [] := List.length_eq_zero.mp (Nat.le_zero.mp hn)
    subst hnil
    rw [tokenizeFile_nil] at ht
    exact absurd ht (List.not_mem_nil t)
  | succ n ih =>
    intro file hn t ht
    cases file with
    | nil =>
      rw [tokenizeFile_nil] at ht
      exact absurd ht (List.not_mem_nil t)
    | cons ch file =>
      simp only [List.length_cons, Nat.add_le_add_iff_right] at hn
      have hlift : ∀ (l : List Char), l <:+ file → l.length ≤ n → t ∈ tokenizeFile l →
          t.text.length ≤ 1 ∨
            (t.text.data <:+: ch :: file ∧ ∀ c ∈ t.text.data, isalnum c = true) := by
        intro l hl hln htl
        rcases ih l hln t htl with h | ⟨h1, h2⟩
        · exact Or.inl h
        · exact Or.inr ⟨h1.trans ((hl.trans (List.suffix_cons ch file)).isInfix), h2⟩
      have hrun : ∀ (k : TokenType) (p : Char → Bool), isalnum ch = true →
          (∀ c, p c = true → isalnum c = true) →
          t ∈ (⟨k, String.mk (ch :: file.takeWhile p)⟩ : Token) ::
              tokenizeFile (ungetc (file.dropWhile p)) →
          t.text.length ≤ 1 ∨
            (t.text.data <:+: ch :: file ∧ ∀ c ∈ t.text.data, isalnum c = true) := by
        intro k p hc hp htm
        rcases List.mem_cons.mp htm with rfl | htm
        · refine Or.inr ⟨((List.prefix_cons_inj ch).mpr (List.takeWhile_prefix p)).isInfix, ?_⟩
          intro c hcm
          rcases List.mem_cons.mp hcm with rfl | hcm
          · exact hc
          · exact hp c (List.mem_takeWhile_imp hcm)
        · exact hlift _ ((ungetc_suffix _).trans (List.dropWhile_suffix p))
            (Nat.le_trans (length_ungetc_dropWhile_le p file) hn) htm
      by_cases hch : ch = eofChar
      · rw [tokenizeFile_cons, if_pos hch] at ht
        exact absurd ht (List.not_mem_nil t)
      rcases tokenizeFile_cons_cases ch hch with ⟨_, h⟩ | ⟨ha, h⟩ | ⟨hd, h⟩ | ⟨_, t0, ht0, h⟩
      · rw [h file] at ht
        exact hlift file (List.suffix_refl _) hn ht
      · rw [h file] at ht
        exact hrun _ _ (isalnum_of_isalpha ha) (fun _ hc => hc) ht
      · rw [h file] at ht
        exact hrun _ _ (isalnum_of_isdigit hd) (fun _ hc => isalnum_of_isdigit hc) ht
      · rw [h file] at ht
        rcases List.mem_cons.mp ht with rfl | ht
        · exact Or.inl ht0
        · exact hlift file (List.suffix_refl _) hn ht

/-- C15 (as amended): lexer totality and token well-formedness within the
buffers. On every input on which no write leaves the fixed buffers (every
token text shorter than `MAX_TOKEN_LENGTH` and at most `MAX_TOKENS` tokens), in
particular on every input of at most `MAX_TOKENS` bytes in which every run of
consecutive alphanumeric characters is shorter than `MAX_TOKEN_LENGTH`, and on
every input shorter than `MAX_TOKEN_LENGTH` bytes, the lexer returns its token
list (any fuel of at least the input length gives the same list); and every
token of a returned list is well formed: an Identifier's text
is non-empty, starts with a letter and is all alphanumeric; a Number's text is a
non-empty run of digits; an Operator's text is one of `+ - * /`; Assign is `=`,
ParenOpen is `(`, ParenClose is `)`; an Unknown token's text is one character
that is not NUL, not whitespace, not alphanumeric, none of `= + - * / ( )` and
no brace, or it is the empty text stored for a NUL byte. -/
theorem tokenizeFile_total_wellFormed :
    (∀ (file : List Char) (n : Nat), file.length ≤ n →
      tokenizeLoop n [] file = tokenizeFile file) ∧
    (∀ (file : List Char), withinBuffers (tokenizeFile file) →
      tokenizeFileChecked file = some (tokenizeFile file)) ∧
    (∀ (file : List Char), file.length ≤ MAX_TOKENS →
      (∀ run : List Char, run <:+: file → (∀ c ∈ run, isalnum c = true) →
        run.length < MAX_TOKEN_LENGTH) →
      tokenizeFileChecked file = some (tokenizeFile file)) ∧
    (∀ (file : List Char), file.length < MAX_TOKEN_LENGTH →
      tokenizeFileChecked file = some (tokenizeFile file)) ∧
    (∀ (file : List Char) (toks : List Token), tokenizeFileChecked file = some toks →
      ∀ t ∈ toks, wellFormed t ∧ t.text.length < MAX_TOKEN_LENGTH) := by
  refine ⟨?_, ?_, ?_, ?_, ?_⟩
  · intro file n hn
    exact tokenizeLoop_fuel n file.length [] file hn (Nat.le_refl _)
  · intro file h
    exact tokenizeFileChecked_of_within h
  · intro file hlen hruns
    apply tokenizeFileChecked_of_within
    refine ⟨Nat.le_trans (tokenizeFile_sizes file.length file (Nat.le_refl _)).1 hlen, ?_⟩
    intro t ht
    rcases tokenizeFile_texts file.length file (Nat.le_refl _) t ht with h | ⟨h1, h2⟩
    · exact Nat.lt_of_le_of_lt h (by decide)
    · exact hruns _ h1 h2
  · intro file h
    obtain ⟨h1, h2⟩ := tokenizeFile_sizes file.length file (Nat.le_refl _)
    apply tokenizeFileChecked_of_within
    refine ⟨?_, fun t ht => Nat.lt_of_le_of_lt (h2 t ht) h⟩
    have : MAX_TOKEN_LENGTH ≤ MAX_TOKENS := by decide
    omega
  · intro file toks hsome t ht
    obtain ⟨rfl, hwithin⟩ := tokenizeFileChecked_eq_some hsome
    exact ⟨(tokenizeFile_tokens file.length file (Nat.le_refl _) t ht).1, hwithin.2 t ht⟩

/-- Witness for C15: the Unknown token of `a ; 1`. -/
theorem tokenizeFile_total_wellFormed_witness :
    tokenizeFileChecked "a ; 1".data =
      some [⟨.TOKEN_IDENTIFIER, "a"⟩, ⟨.TOKEN_UNKNOWN, ";"⟩, ⟨.TOKEN_NUMBER, "1"⟩] ∧
    (wellFormed ⟨.TOKEN_UNKNOWN, ";"⟩ ∧
      (⟨.TOKEN_UNKNOWN, ";"⟩ : Token).text.length < MAX_TOKEN_LENGTH) :=
  ⟨by decide, tokenizeFile_total_wellFormed.2.2.2.2 "a ; 1".data
    [⟨.TOKEN_IDENTIFIER, "a"⟩, ⟨.TOKEN_UNKNOWN, ";"⟩, ⟨.TOKEN_NUMBER, "1"⟩] (by decide)
    ⟨.TOKEN_UNKNOWN, ";"⟩ (by decide)⟩

/-- Counterexample to C15 as stated: a NUL byte is stored as an Unknown token
whose text is empty, not of length 1; and the lexer does not return a token list
on every input: a run of 50 letters writes `token[50]` and 101 operators write
`tokens[100]`, both outside their buffers. -/
theorem tokenizeFile_total_wellFormed_counterexample :
    tokenizeFile [nulChar] = [⟨.TOKEN_UNKNOWN, ""⟩] ∧
    (⟨.TOKEN_UNKNOWN, ""⟩ : Token).text.length ≠ 1 ∧
    tokenizeFileChecked (List.replicate 50 'a') = none ∧
    tokenizeFileChecked (List.replicate 101 '+') = none := by
  decide

theorem takeWhile_stop (p : Char → Bool) (l : List Char) (x : Char) (s : List Char)
    (hx : p x = false) : (l ++ x :: s).takeWhile p = l.takeWhile p := by
  induction l with
  | nil => simp [List.takeWhile, hx]
  | cons a l ih =>
    simp only [List.cons_append, List.takeWhile]
    cases p a <;> simp [ih]

theorem dropWhile_stop (p : Char → Bool) (l : List Char) (x : Char) (s : List Char)
    (hx : p x = false) : (l ++ x :: s).dropWhile p = l.dropWhile p ++ x :: s := by
  induction l with
  | nil => simp [List.dropWhile, hx]
  | cons a l ih =>
    simp only [List.cons_append, List.dropWhile]
    cases p a <;> simp [ih]

theorem not_isalpha_of_not_isalnum {x : Char} (h : isalnum x = false) : isalpha x = false := by
  simp only [isalnum, Bool.or_eq_false_iff] at h
  exact h.1

theorem not_isdigit_of_not_isalnum {x : Char} (h : isalnum x = false) : isdigit x = false := by
  simp only [isalnum, Bool.or_eq_false_iff] at h
  exact h.2

/-- A character that is not alphanumeric and not 0xFF is lexed on its own. -/
theorem tokenizeFile_head_stop (x : Char) (s : List Char) (hx : isalnum x = false)
    (he : x ≠ eofChar) :
    tokenizeFile (x :: s) = tokenizeFile [x] ++ tokenizeFile s := by
  rcases tokenizeFile_cons_cases x he with ⟨_, h⟩ | ⟨ha, _⟩ | ⟨hd, _⟩ | ⟨_, t0, _, h⟩
  · rw [h s, h [], tokenizeFile_nil, List.nil_append]
  · rw [isalnum_of_isalpha ha] at hx
    cases hx
  · rw [isalnum_of_isdigit hd] at hx
    cases hx
  · rw [h s, h [], tokenizeFile_nil]
    rfl

theorem ungetc_append_stop (l : List Char) (x : Char) (s : List Char)
    (hl : ∀ y ∈ l, y ≠ eofChar) (hx : x ≠ eofChar) : ungetc (l ++ x :: s) = l ++ x :: s := by
  apply ungetc_of_head
  intro y hy
  have hmem : y ∈ l ++ x :: s := List.mem_of_mem_head? hy
  cases l with
  | nil =>
    simp only [List.nil_append, List.head?_cons, Option.some.injEq] at hy
    rw [← hy]
    exact hx
  | cons a l =>
    simp only [List.cons_append, List.head?_cons, Option.some.injEq] at hy
    rw [← hy]
    exact hl a (List.mem_cons_self _ _)

/-- The tokens before and after a character that is not alphanumeric are
independent of each other, as long as no byte 0xFF is read. -/
theorem tokenizeFile_split (n : Nat) :
    ∀ (pre : List Char), pre.length ≤ n → (∀ y ∈ pre, y ≠ eofChar) →
      ∀ (x : Char) (s : List Char), isalnum x = false → x ≠ eofChar →
      tokenizeFile (pre ++ x :: s) = tokenizeFile (pre ++ [x]) ++ tokenizeFile s := by
  induction n with
  | zero =>
    intro pre hn _ x s hx he
    have hnil : pre = [] := List.length_eq_zero.mp (Nat.le_zero.mp hn)
    subst hnil
    exact tokenizeFile_head_stop x s hx he
  | succ n ih =>
    intro pre hn hpe x s hx he
    cases pre with
    | nil => exact tokenizeFile_head_stop x s hx he
    | cons ch pre =>
      simp only [List.length_cons, Nat.add_le_add_iff_right] at hn
      have hpe' : ∀ y ∈ pre, y ≠ eofChar := fun y hy => hpe y (List.mem_cons_of_mem _ hy)
      have hpre := ih pre hn hpe' x s hx he
      have hx' : isdigit x = false := not_isdigit_of_not_isalnum hx
      have hdm : ∀ p : Char → Bool, ∀ y ∈ pre.dropWhile p, y ≠ eofChar :=
        fun p y hy => hpe' y ((List.dropWhile_suffix p).subset hy)
      have hdrop : ∀ p : Char → Bool,
          tokenizeFile (pre.dropWhile p ++ x :: s) =
            tokenizeFile (pre.dropWhile p ++ [x]) ++ tokenizeFile s :=
        fun p => ih _ (Nat.le_trans (length_dropWhile_le p pre) hn) (hdm p) x s hx he
      have hch : ch ≠ eofChar := hpe ch (List.mem_cons_self _ _)
      have hrun : ∀ (k : TokenType) (p : Char → Bool), (p x = false) →
          (⟨k, String.mk (ch :: (pre ++ x :: s).takeWhile p)⟩ : Token) ::
              tokenizeFile (ungetc ((pre ++ x :: s).dropWhile p)) =
            ((⟨k, String.mk (ch :: (pre ++ [x]).takeWhile p)⟩ : Token) ::
              tokenizeFile (ungetc ((pre ++ [x]).dropWhile p))) ++ tokenizeFile s := by
        intro k p hp
        rw [takeWhile_stop p pre x s hp, takeWhile_stop p pre x [] hp,
          dropWhile_stop p pre x s hp, dropWhile_stop p pre x [] hp,
          ungetc_append_stop _ x s (hdm p) he, ungetc_append_stop _ x [] (hdm p) he,
          hdrop p, List.cons_append]
      rw [List.cons_append, List.cons_append]
      rcases tokenizeFile_cons_cases ch hch with ⟨_, h⟩ | ⟨_, h⟩ | ⟨_, h⟩ | ⟨_, t0, _, h⟩
      · rw [h (pre ++ x :: s), h (pre ++ [x]), hpre]
      · rw [h (pre ++ x :: s), h (pre ++ [x])]
        exact hrun _ _ hx
      · rw [h (pre ++ x :: s), h (pre ++ [x])]
        exact hrun _ _ hx'
      · rw [h (pre ++ x :: s), h (pre ++ [x]), hpre, List.cons_append]

/-- C16 (as amended): keywords in the lexer. On every input on which no write
leaves the fixed buffers, no token the lexer produces has kind `TOKEN_IF` or
`TOKEN_EOF`; and a maximal alphanumeric run equal to `if` (at the start of the
input or after a character that is not alphanumeric, at the end of the input or
before such a character) with no byte 0xFF anywhere before it is produced as an
Identifier token with text `if`, right after the tokens of what precedes it. -/
theorem tokenizeFile_no_keyword :
    (∀ (file : List Char) (toks : List Token), tokenizeFileChecked file = some toks →
      ∀ t ∈ toks, t.type ≠ .TOKEN_IF ∧ t.type ≠ .TOKEN_EOF) ∧
    (∀ (before rest : List Char) (toks : List Token),
      (∀ x ∈ before, x ≠ eofChar) →
      (∀ x, before.getLast? = some x → isalnum x = false) →
      (∀ x, rest.head? = some x → isalnum x = false) →
      tokenizeFileChecked (before ++ 'i' :: 'f' :: rest) = some toks →
      toks = tokenizeFile before ++
        ⟨.TOKEN_IDENTIFIER, "if"⟩ :: tokenizeFile (ungetc rest)) := by
  constructor
  · intro file toks hsome t ht
    obtain ⟨rfl, _⟩ := tokenizeFileChecked_eq_some hsome
    exact (tokenizeFile_tokens file.length file (Nat.le_refl _) t ht).2
  · intro before rest toks hne hb hr hsome
    obtain ⟨rfl, _⟩ := tokenizeFileChecked_eq_some hsome
    have hif : tokenizeFile ('i' :: 'f' :: rest) =
        ⟨.TOKEN_IDENTIFIER, "if"⟩ :: tokenizeFile (ungetc rest) :=
      tokenizeFile_identifier_run 'i' ['f'] rest (by decide) (by decide) hr
    rcases List.eq_nil_or_concat before with rfl | ⟨pre, x, rfl⟩
    · simpa [tokenizeFile_nil] using hif
    · simp only [List.concat_eq_append] at hb hne ⊢
      have hx : isalnum x = false := hb x (by simp)
      have hxe : x ≠ eofChar := hne x (by simp)
      have hpe : ∀ y ∈ pre, y ≠ eofChar := fun y hy => hne y (by simp [hy])
      rw [List.append_assoc, List.singleton_append,
        tokenizeFile_split pre.length pre (Nat.le_refl _) hpe x _ hx hxe, hif]

/-- Witness for C16: the `if` of `x=if(` sits between `=` and `(`. -/
theorem tokenizeFile_no_keyword_witness :
    tokenizeFileChecked (['x', '='] ++ 'i' :: 'f' :: ['(']) =
      some [⟨.TOKEN_IDENTIFIER, "x"⟩, ⟨.TOKEN_ASSIGN, "="⟩, ⟨.TOKEN_IDENTIFIER, "if"⟩,
        ⟨.TOKEN_PAREN_OPEN, "("⟩] ∧
    [⟨.TOKEN_IDENTIFIER, "x"⟩, ⟨.TOKEN_ASSIGN, "="⟩, ⟨.TOKEN_IDENTIFIER, "if"⟩,
        ⟨.TOKEN_PAREN_OPEN, "("⟩] =
      tokenizeFile ['x', '='] ++ ⟨.TOKEN_IDENTIFIER, "if"⟩ :: tokenizeFile (ungetc ['(']) :=
  ⟨by decide, tokenizeFile_no_keyword.2 ['x', '='] ['(']
    [⟨.TOKEN_IDENTIFIER, "x"⟩, ⟨.TOKEN_ASSIGN, "="⟩, ⟨.TOKEN_IDENTIFIER, "if"⟩,
      ⟨.TOKEN_PAREN_OPEN, "("⟩] (by decide) (by decide) (by decide) (by decide)⟩

/-- Counterexample to C16 as stated: in the input 0xFF, `i`, `f` the run `if`
is a maximal alphanumeric run (0xFF is not alphanumeric), yet it is not
produced as a token at all: read into `char ch`, the byte 0xFF equals `EOF` and
ends the loop before the run is read. -/
theorem tokenizeFile_no_keyword_counterexample :
    isalnum eofChar = false ∧
    tokenizeFile ([eofChar] ++ 'i' :: 'f' :: []) = [] ∧
    tokenizeFile ([eofChar] ++ 'i' :: 'f' :: []) ≠
      tokenizeFile [eofChar] ++ ⟨.TOKEN_IDENTIFIER, "if"⟩ :: tokenizeFile [] := by
  decide
/-! ### C17: the value fields of the nodes -/

theorem valuesFrom_leaf (tokens : List Token) (type : ASTNodeType) (k : Nat)
    (h : type = .AST_NUMBER ∨ type = .AST_VAR_DECL) :
    valuesFrom tokens (createNode type (tokenAt tokens k).text) := by
  rcases h with rfl | rfl <;> exact ⟨⟨k, rfl⟩, trivial, trivial⟩

theorem valuesFrom_bin (tokens : List Token) (type : ASTNodeType) (left right : ASTNode)
    (h : type = .AST_ADD ∨ type = .AST_SUB ∨ type = .AST_MUL ∨ type = .AST_DIV ∨
      type = .AST_IF)
    (hl : valuesFrom tokens left) (hr : valuesFrom tokens right) :
    valuesFrom tokens (.node type "" left right) := by
  rcases h with rfl | rfl | rfl | rfl | rfl <;> exact ⟨rfl, hl, hr⟩

/-- Every tree the fuelled expression parser returns obeys the value rule. -/
theorem fuel_values (n : Nat) :
    (∀ tokens i nd j, parseFactorFuel n tokens i = .ok nd j → valuesFrom tokens nd) ∧
    (∀ tokens left i nd j, valuesFrom tokens left →
      parseTermLoop n tokens left i = .ok nd j → valuesFrom tokens nd) ∧
    (∀ tokens i nd j, parseTermFuel n tokens i = .ok nd j → valuesFrom tokens nd) ∧
    (∀ tokens left i nd j, valuesFrom tokens left →
      parseExpressionLoop n tokens left i = .ok nd j → valuesFrom tokens nd) ∧
    (∀ tokens i nd j, parseExpressionFuel n tokens i = .ok nd j → valuesFrom tokens nd) := by
  induction n with
  | zero =>
    refine ⟨?_, ?_, ?_, ?_, ?_⟩ <;> intros <;> simp_all [parseFactorFuel, parseTermLoop,
      parseTermFuel, parseExpressionLoop, parseExpressionFuel]
  | succ n ih =>
    obtain ⟨hF, hTL, hT, hEL, hE⟩ := ih
    refine ⟨?_, ?_, ?_, ?_, ?_⟩
    · intro tokens i nd j h
      simp only [parseFactorFuel] at h
      split at h
      · cases h
        exact valuesFrom_leaf tokens _ i (Or.inl rfl)
      · split at h
        · cases h
          exact valuesFrom_leaf tokens _ i (Or.inr rfl)
        · split at h
          · cases he : parseExpressionFuel n tokens (i + 1) with
            | ok inner k =>
              rw [he] at h
              simp only at h
              split at h
              · cases h
              · cases h
                exact hE _ _ _ _ he
            | syntaxError msg => rw [he] at h; cases h
            | outOfFuel => rw [he] at h; cases h
          · cases h
    · intro tokens left i nd j hl h
      simp only [parseTermLoop] at h
      split at h
      · cases he : parseFactorFuel n tokens (i + 1) with
        | ok right k =>
          rw [he] at h
          refine hTL _ _ _ _ _ ?_ h
          refine valuesFrom_bin tokens _ left right ?_ hl (hF _ _ _ _ he)
          split
          · exact Or.inr (Or.inr (Or.inl rfl))
          · exact Or.inr (Or.inr (Or.inr (Or.inl rfl)))
        | syntaxError msg => rw [he] at h; cases h
        | outOfFuel => rw [he] at h; cases h
      · cases h
        exact hl
    · intro tokens i nd j h
      simp only [parseTermFuel] at h
      cases he : parseFactorFuel n tokens i with
      | ok left k =>
        rw [he] at h
        exact hTL _ _ _ _ _ (hF _ _ _ _ he) h
      | syntaxError msg => rw [he] at h; cases h
      | outOfFuel => rw [he] at h; cases h
    · intro tokens left i nd j hl h
      simp only [parseExpressionLoop] at h
      split at h
      · cases he : parseTermFuel n tokens (i + 1) with
        | ok right k =>
          rw [he] at h
          refine hEL _ _ _ _ _ ?_ h
          refine valuesFrom_bin tokens _ left right ?_ hl (hT _ _ _ _ he)
          split
          · exact Or.inl rfl
          · exact Or.inr (Or.inl rfl)
        | syntaxError msg => rw [he] at h; cases h
        | outOfFuel => rw [he] at h; cases h
      · cases h
        exact hl
    · intro tokens i nd j h
      simp only [parseExpressionFuel] at h
      cases he : parseTermFuel n tokens i with
      | ok left k =>
        rw [he] at h
        exact hEL _ _ _ _ _ (hT _ _ _ _ he) h
      | syntaxError msg => rw [he] at h; cases h
      | outOfFuel => rw [he] at h; cases h

theorem parseExpression_values {tokens : List Token} {i j : Nat} {nd : ASTNode}
    (h : parseExpression tokens i = .ok nd j) : valuesFrom tokens nd :=
  (fuel_values _).2.2.2.2 _ _ _ _ h

theorem parseAssignment_values {tokens : List Token} {c j : Nat} {nd : ASTNode}
    (h : parseAssignment tokens c = .ok nd j) :
    valuesFrom tokens nd ∧ ∃ right, nd = .node .AST_ASSIGN (tokenAt tokens c).text
      (createNode .AST_VAR_DECL (tokenAt tokens (c + 1)).text) right := by
  simp only [parseAssignment] at h
  split at h
  · cases he : parseExpression tokens (c + 1 + 1 + 1) with
    | ok right k =>
      rw [he] at h
      cases h
      exact ⟨⟨⟨c, rfl, rfl⟩, valuesFrom_leaf tokens _ (c + 1) (Or.inr rfl),
        parseExpression_values he⟩, right, rfl⟩
    | syntaxError msg => rw [he] at h; cases h
    | outOfFuel => rw [he] at h; cases h
  · cases h
    exact ⟨⟨⟨c, rfl, rfl⟩, valuesFrom_leaf tokens _ (c + 1) (Or.inr rfl), trivial⟩,
      .null, rfl⟩

/-- C17 (as amended): node value fields. Every Add, Sub, Mul, Div and If node
in a tree the parser returns has the empty string as its value; VarRef and
Number nodes copy the text of a token; and the value of an Assign node is the
text of the token at the statement's cursor, the token just before the one its
left-hand variable is made from, not the variable's name. For `int x = 5` the
Assign carries `int` and its left child is `VarRef(x)`. -/
theorem node_values :
    (∀ (tokens : List Token) (c : Nat) (nd : ASTNode) (j : Nat),
      (parseExpression tokens c = .ok nd j → valuesFrom tokens nd) ∧
      (parseAssignment tokens c = .ok nd j →
        valuesFrom tokens nd ∧ ∃ right, nd = .node .AST_ASSIGN (tokenAt tokens c).text
          (createNode .AST_VAR_DECL (tokenAt tokens (c + 1)).text) right) ∧
      (parseIfStatement tokens c = .ok nd j → valuesFrom tokens nd)) ∧
    parseAssignment (tokenizeFile "int x = 5".data) 0 =
      .ok (.node .AST_ASSIGN "int" (createNode .AST_VAR_DECL "x")
        (createNode .AST_NUMBER "5")) 4 := by
  refine ⟨?_, by decide⟩
  intro tokens c nd j
  refine ⟨parseExpression_values, parseAssignment_values, ?_⟩
  intro h
  simp only [parseIfStatement] at h
  split at h
  · cases he : parseExpression tokens (c + 1 + 1) with
    | ok cond k =>
      rw [he] at h
      simp only at h
      split at h
      · cases h
      · cases ha : parseAssignment tokens (k + 1) with
        | ok st m =>
          rw [ha] at h
          cases h
          exact ⟨rfl, parseExpression_values he, (parseAssignment_values ha).1⟩
        | syntaxError msg => rw [ha] at h; cases h
        | outOfFuel => rw [ha] at h; cases h
    | syntaxError msg => rw [he] at h; cases h
    | outOfFuel => rw [he] at h; cases h
  · cases h
    trivial

/-- Witness for C17: the value rule on the tree of `int x = 1 + 2`. -/
theorem node_values_witness :
    valuesFrom (tokenizeFile "int x = 1 + 2".data)
      (.node .AST_ASSIGN "int" (createNode .AST_VAR_DECL "x")
        (.node .AST_ADD "" (createNode .AST_NUMBER "1") (createNode .AST_NUMBER "2"))) :=
  ((node_values.1 (tokenizeFile "int x = 1 + 2".data) 0 _ 6).2.1 (by decide)).1

/-- Counterexample to C17 as stated: on the tokens of `int x = 5` the value of
the Assign node is `int`, the text of the first token, while its left-hand
variable is `x`. -/
theorem node_values_counterexample :
    parseAssignment (tokenizeFile "int x = 5".data) 0 =
      .ok (.node .AST_ASSIGN "int" (createNode .AST_VAR_DECL "x")
        (createNode .AST_NUMBER "5")) 4 ∧
    ¬ ∃ right j, parseAssignment (tokenizeFile "int x = 5".data) 0 =
      .ok (.node .AST_ASSIGN "x" (createNode .AST_VAR_DECL "x") right) j := by
  have e : parseAssignment (tokenizeFile "int x = 5".data) 0 =
      .ok (.node .AST_ASSIGN "int" (createNode .AST_VAR_DECL "x")
        (createNode .AST_NUMBER "5")) 4 := by decide
  refine ⟨e, ?_⟩
  rintro ⟨right, j, h⟩
  rw [e] at h
  simp at h

end Task7

namespace Task56

/-! ### The earliest parser returns on every input -/

theorem tokenAt_past_end (tokens : List Token) (i : Nat) (h : tokens.length ≤ i) :
    tokenAt tokens i = zeroToken := by
  simp [tokenAt, List.getD, List.getElem?_eq_none h]

/-- A token whose first character is an operator lies inside the token list. -/
theorem lt_length_of_text0 (tokens : List Token) (i : Nat) (a b : Char)
    (ha : a ≠ Char.ofNat 0) (hb : b ≠ Char.ofNat 0)
    (h : text0 (tokenAt tokens i) = a ∨ text0 (tokenAt tokens i) = b) :
    i < tokens.length := by
  by_contra hlt
  rw [tokenAt_past_end tokens i (Nat.le_of_not_lt hlt)] at h
  rcases h with h | h
  · exact ha h.symm
  · exact hb h.symm

theorem parseFactor_snd (tokens : List Token) (i : Nat) : (parseFactor tokens i).2 = i + 1 := by
  unfold parseFactor
  split <;> rfl

/-- The loop of `parseTerm` returns, with the cursor not moved back. -/
theorem parseTermLoop_returns (fuel : Nat) :
    ∀ (tokens : List Token) (left : ASTNode) (i : Nat), tokens.length - i + 1 ≤ fuel →
      ∃ nd j, parseTermLoop fuel tokens left i = .ok nd j ∧ i ≤ j := by
  induction fuel with
  | zero => intro tokens left i h; omega
  | succ fuel ih =>
    intro tokens left i h
    simp only [parseTermLoop]
    split
    · rename_i hc
      have hlt := lt_length_of_text0 tokens i '*' '/' (by decide) (by decide) hc
      have hs := parseFactor_snd tokens (i + 1)
      obtain ⟨nd, j, he, hj⟩ := ih tokens
        (.node (if text0 (tokenAt tokens i) = '*' then .AST_MUL else .AST_DIV) "" left
          (parseFactor tokens (i + 1)).1) (parseFactor tokens (i + 1)).2 (by omega)
      exact ⟨nd, j, he, by omega⟩
    · exact ⟨left, i, rfl, Nat.le_refl _⟩

/-- The function `parseTerm` of the earliest revision returns and advances the
cursor. -/
theorem parseTerm_returns (tokens : List Token) (i : Nat) :
    ∃ nd j, parseTerm tokens i = .ok nd j ∧ i < j := by
  have hs := parseFactor_snd tokens i
  obtain ⟨nd, j, he, hj⟩ := parseTermLoop_returns (tokens.length - (parseFactor tokens i).2 + 1)
    tokens (parseFactor tokens i).1 (parseFactor tokens i).2 (Nat.le_refl _)
  exact ⟨nd, j, he, by omega⟩

/-- The loop of `parseExpression` returns, with the cursor not moved back. -/
theorem parseExpressionLoop_returns (fuel : Nat) :
    ∀ (tokens : List Token) (left : ASTNode) (i : Nat), tokens.length - i + 1 ≤ fuel →
      ∃ nd j, parseExpressionLoop fuel tokens left i = .ok nd j ∧ i ≤ j := by
  induction fuel with
  | zero => intro tokens left i h; omega
  | succ fuel ih =>
    intro tokens left i h
    simp only [parseExpressionLoop]
    split
    · rename_i hc
      have hlt := lt_length_of_text0 tokens i '+' '-' (by decide) (by decide) hc
      obtain ⟨right, k, ht, hk⟩ := parseTerm_returns tokens (i + 1)
      rw [ht]
      obtain ⟨nd, j, he, hj⟩ := ih tokens
        (.node (if text0 (tokenAt tokens i) = '+' then .AST_ADD else .AST_SUB) "" left
          right) k (by omega)
      exact ⟨nd, j, he, by omega⟩
    · exact ⟨left, i, rfl, Nat.le_refl _⟩

/-- The function `parseExpression` of the earliest revision returns and
advances the cursor: the fuel of the model is never exhausted. -/
theorem parseExpression_returns (tokens : List Token) (i : Nat) :
    ∃ nd j, parseExpression tokens i = .ok nd j ∧ i < j := by
  obtain ⟨left, k, ht, hk⟩ := parseTerm_returns tokens i
  obtain ⟨nd, j, he, hj⟩ := parseExpressionLoop_returns (tokens.length - k + 1) tokens left k
    (Nat.le_refl _)
  refine ⟨nd, j, ?_, by omega⟩
  simp only [parseExpression, ht]
  exact he


/-! ### C18: character accounting in the earliest lexer -/

theorem isalnum_false_of_isspace {ch : Char} (h : isspace ch = true) : isalnum ch = false := by
  cases ha : isalnum ch with
  | false => rfl
  | true =>
    have := Task7.not_isspace_of_isalnum ha
    rw [h] at this
    cases this

/-- A symbol of the earliest lexer is not the byte 0xFF. -/
theorem ne_eofChar_of_isSymbol {ch : Char} (h : isSymbol ch = true) : ch ≠ eofChar := by
  intro he
  rw [he] at h
  exact absurd h (by decide)

/-- A whitespace character is not the byte 0xFF. -/
theorem ne_eofChar_of_isspace {ch : Char} (h : isspace ch = true) : ch ≠ eofChar := by
  intro he
  rw [he] at h
  exact absurd h (by decide)

/-- The flush of the characters collected so far. -/
theorem tokenizeLoop_nil (token : List Char) :
    tokenizeLoop token [] = if token.length > 0 then [⟨String.mk token⟩] else [] := by
  cases token <;> rfl

/-- One turn of the loop of the earliest lexer. -/
theorem tokenizeLoop_cons (token : List Char) (ch : Char) (file : List Char) :
    tokenizeLoop token (ch :: file) =
      if ch = eofChar then (if token.length > 0 then [⟨String.mk token⟩] else [])
      else if isspace ch || isSymbol ch then
        (if token.length > 0 then [⟨String.mk token⟩] else []) ++
          ((if isSymbol ch then [⟨String.mk [ch]⟩] else []) ++ tokenizeLoop [] file)
      else if isalnum ch then tokenizeLoop (token ++ [ch]) file
      else tokenizeLoop token file := by
  cases token <;> rfl

/-- The texts of the flushed buffer are the characters collected. -/
theorem flatMap_flush (token : List Char) :
    (if token.length > 0 then [(⟨String.mk token⟩ : Token)] else []).flatMap
      (fun t => t.text.data) = token := by
  cases token with
  | nil => rfl
  | cons c token =>
    rw [if_pos (by simp)]
    simp [List.flatMap_cons]

/-- The texts of the tokens of the earliest lexer, concatenated after the
characters already collected, are the alphanumeric and symbol characters of the
input before its first byte 0xFF, in order. -/
theorem tokenizeLoop_concat (file : List Char) :
    ∀ (token : List Char),
      (tokenizeLoop token file).flatMap (fun t => t.text.data) =
        token ++ (file.takeWhile (fun c => decide (c ≠ eofChar))).filter
          (fun c => isalnum c || isSymbol c) := by
  induction file with
  | nil =>
    intro token
    rw [tokenizeLoop_nil, flatMap_flush]
    simp
  | cons ch file ih =>
    intro token
    rw [tokenizeLoop_cons]
    by_cases heof : ch = eofChar
    · have htw : (ch :: file).takeWhile (fun c => decide (c ≠ eofChar)) = [] := by
        simp [List.takeWhile_cons, heof]
      rw [if_pos heof, flatMap_flush, htw]
      simp
    · have htw : (ch :: file).takeWhile (fun c => decide (c ≠ eofChar)) =
          ch :: file.takeWhile (fun c => decide (c ≠ eofChar)) := by
        simp [List.takeWhile_cons, heof]
      rw [if_neg heof, htw]
      by_cases hsym : isSymbol ch = true
      · have hkeep : (isalnum ch || isSymbol ch) = true := by simp [hsym]
        have hsep : (isspace ch || isSymbol ch) = true := by simp [hsym]
        rw [if_pos hsep, if_pos hsym, List.filter_cons, if_pos hkeep,
          List.flatMap_append, flatMap_flush, List.flatMap_append, ih]
        simp [List.flatMap_cons]
      · have hsym' : isSymbol ch = false := by simpa using hsym
        by_cases hsp : isspace ch = true
        · have hal := isalnum_false_of_isspace hsp
          have hkeep : ¬ (isalnum ch || isSymbol ch) = true := by simp [hal, hsym']
          have hsep : (isspace ch || isSymbol ch) = true := by simp [hsp]
          rw [if_pos hsep, if_neg hsym, List.filter_cons, if_neg hkeep,
            List.flatMap_append, flatMap_flush, List.flatMap_append, ih]
          simp
        · have hsp' : isspace ch = false := by simpa using hsp
          have hsep : ¬ (isspace ch || isSymbol ch) = true := by simp [hsp', hsym']
          rw [if_neg hsep]
          by_cases hal : isalnum ch = true
          · have hkeep : (isalnum ch || isSymbol ch) = true := by simp [hal]
            rw [if_pos hal, ih, List.filter_cons, if_pos hkeep]
            simp
          · have hal' : isalnum ch = false := by simpa using hal
            have hkeep : ¬ (isalnum ch || isSymbol ch) = true := by simp [hal', hsym']
            rw [if_neg hal, ih, List.filter_cons, if_neg hkeep]

/-- A character that is neither whitespace, a symbol, alphanumeric nor the byte
0xFF leaves the loop as it found it: the tokens are those of the input without
that character, whatever has been collected so far. -/
theorem tokenizeLoop_skip (x : Char) (post : List Char) (he : x ≠ eofChar)
    (hsp : isspace x = false) (hsym : isSymbol x = false) (hal : isalnum x = false)
    (pre : List Char) :
    ∀ (token : List Char),
      tokenizeLoop token (pre ++ x :: post) = tokenizeLoop token (pre ++ post) := by
  induction pre with
  | nil =>
    intro token
    have hsep : ¬ (isspace x || isSymbol x) = true := by simp [hsp, hsym]
    have hal' : ¬ isalnum x = true := by simp [hal]
    rw [List.nil_append, List.nil_append, tokenizeLoop_cons, if_neg he, if_neg hsep,
      if_neg hal']
  | cons ch pre ih =>
    intro token
    rw [List.cons_append, List.cons_append, tokenizeLoop_cons, tokenizeLoop_cons,
      ih [], ih (token ++ [ch]), ih token]

/-- A whitespace or symbol character after a prefix without the byte 0xFF ends
the token in progress; a symbol is then stored as a one-character token; the
rest of the input is read with an empty buffer. -/
theorem tokenizeLoop_separator (b : Char) (post : List Char)
    (hb : (isspace b || isSymbol b) = true) (pre : List Char) :
    ∀ (token : List Char), (∀ y ∈ pre, y ≠ eofChar) →
      tokenizeLoop token (pre ++ b :: post) =
        tokenizeLoop token pre ++
          ((if isSymbol b then [⟨String.mk [b]⟩] else []) ++ tokenizeLoop [] post) := by
  have hbe : b ≠ eofChar := by
    rcases (Bool.or_eq_true _ _).mp hb with h | h
    · exact ne_eofChar_of_isspace h
    · exact ne_eofChar_of_isSymbol h
  induction pre with
  | nil =>
    intro token _
    rw [List.nil_append, tokenizeLoop_cons, if_neg hbe, if_pos hb, tokenizeLoop_nil]
  | cons ch pre ih =>
    intro token hpre
    have hch : ch ≠ eofChar := hpre ch (List.mem_cons_self _ _)
    have hpre' : ∀ y ∈ pre, y ≠ eofChar := fun y hy => hpre y (List.mem_cons_of_mem _ hy)
    rw [List.cons_append, tokenizeLoop_cons, tokenizeLoop_cons, if_neg hch, if_neg hch,
      ih [] hpre', ih (token ++ [ch]) hpre', ih token hpre']
    by_cases h1 : (isspace ch || isSymbol ch) = true
    · rw [if_pos h1, if_pos h1]
      simp only [List.append_assoc]
    · rw [if_neg h1, if_neg h1]
      by_cases h2 : isalnum ch = true
      · rw [if_pos h2, if_pos h2]
      · rw [if_neg h2, if_neg h2]

/-- The run with buffers returns exactly the stored tokens, and only within
the buffers. -/
theorem tokenizeFileChecked_some {file : List Char} {toks : List Token}
    (h : tokenizeFileChecked file = some toks) :
    toks = tokenizeFile file ∧ withinBuffers (tokenizeFile file) := by
  unfold tokenizeFileChecked at h
  split at h
  · rename_i hw
    cases h
    exact ⟨rfl, hw⟩
  · cases h

theorem tokenizeFileChecked_within {file : List Char}
    (h : withinBuffers (tokenizeFile file)) :
    tokenizeFileChecked file = some (tokenizeFile file) := by
  unfold tokenizeFileChecked
  rw [if_pos h]

/-- The two parts of a token list within the buffers are within the buffers. -/
theorem withinBuffers_append {xs mid ys : List Token} (h : withinBuffers (xs ++ (mid ++ ys))) :
    withinBuffers xs ∧ withinBuffers ys := by
  obtain ⟨h1, h2⟩ := h
  simp only [List.length_append] at h1
  refine ⟨⟨by omega, fun t ht => h2 t ?_⟩, ⟨by omega, fun t ht => h2 t ?_⟩⟩
  · exact List.mem_append_left _ ht
  · exact List.mem_append_right _ (List.mem_append_right _ ht)

/-- No character is both whitespace and a symbol. -/
theorem not_isSymbol_of_isspace {w : Char} (hsp : isspace w = true) : ¬ isSymbol w = true := by
  intro hs
  simp only [isSymbol, Bool.or_eq_true, beq_iff_eq] at hs
  rcases hs with (((((((h2 | h2) | h2) | h2) | h2) | h2) | h2) | h2) | h2 <;>
    subst h2 <;> exact absurd hsp (by decide)

/-- C18 (as amended): character accounting in the earliest lexer. On every
input on which no write leaves the fixed buffers (every token text shorter than
`MAX_TOKEN_LENGTH`, at most `MAX_TOKENS` tokens), every character before the
first byte 0xFF (every character, when there is none) is consumed into exactly
one token's text or is dropped, in order, and nothing from that byte on is
read. The characters kept are the alphanumeric ones and the symbols
`= + - * / ( ) { }`; the characters dropped are whitespace and every other
character such as `;` or `<`. Such a character, anywhere in any input, produces
no token and does not end the token in progress: the run is the run of the
input without it (`a;b` gives the single token `ab`). A symbol after a prefix
without 0xFF, a brace in particular, ends the token in progress and is stored
as a one-character token, and whitespace there only ends the token in
progress. -/
theorem tokenizeFile_accounting :
    (∀ (file : List Char) (toks : List Token), tokenizeFileChecked file = some toks →
      toks.flatMap (fun t => t.text.data) =
        (file.takeWhile (fun c => decide (c ≠ eofChar))).filter
          (fun c => isalnum c || isSymbol c)) ∧
    (∀ (pre : List Char) (x : Char) (post : List Char), x ≠ eofChar →
      isspace x = false → isSymbol x = false → isalnum x = false →
      tokenizeFile (pre ++ x :: post) = tokenizeFile (pre ++ post) ∧
      tokenizeFileChecked (pre ++ x :: post) = tokenizeFileChecked (pre ++ post)) ∧
    (∀ (pre : List Char) (b : Char) (post : List Char) (toks : List Token),
      (∀ y ∈ pre, y ≠ eofChar) → isSymbol b = true →
      tokenizeFileChecked (pre ++ b :: post) = some toks →
      tokenizeFileChecked pre = some (tokenizeFile pre) ∧
      tokenizeFileChecked post = some (tokenizeFile post) ∧
      toks = tokenizeFile pre ++ ⟨String.mk [b]⟩ :: tokenizeFile post) ∧
    (∀ (pre : List Char) (w : Char) (post : List Char) (toks : List Token),
      (∀ y ∈ pre, y ≠ eofChar) → isspace w = true →
      tokenizeFileChecked (pre ++ w :: post) = some toks →
      tokenizeFileChecked pre = some (tokenizeFile pre) ∧
      tokenizeFileChecked post = some (tokenizeFile post) ∧
      toks = tokenizeFile pre ++ tokenizeFile post) ∧
    (isSymbol '\x7b' = true ∧ isSymbol '\x7d' = true) ∧
    tokenizeFileChecked "a;b".data = some [⟨"ab"⟩] ∧
    tokenizeFileChecked "\x7bx<1\x7d".data = some [⟨"\x7b"⟩, ⟨"x1"⟩, ⟨"\x7d"⟩] := by
  refine ⟨?_, ?_, ?_, ?_, by decide, by decide, by decide⟩
  · intro file toks h
    obtain ⟨rfl, _⟩ := tokenizeFileChecked_some h
    have := tokenizeLoop_concat file []
    rw [List.nil_append] at this
    exact this
  · intro pre x post he hsp hsym hal
    have h : tokenizeFile (pre ++ x :: post) = tokenizeFile (pre ++ post) :=
      tokenizeLoop_skip x post he hsp hsym hal pre []
    refine ⟨h, ?_⟩
    unfold tokenizeFileChecked
    rw [h]
  · intro pre b post toks hpre hb h
    obtain ⟨rfl, hw⟩ := tokenizeFileChecked_some h
    have hsplit : tokenizeFile (pre ++ b :: post) =
        tokenizeFile pre ++ ([⟨String.mk [b]⟩] ++ tokenizeFile post) := by
      have := tokenizeLoop_separator b post (by simp [hb]) pre [] hpre
      rw [if_pos hb] at this
      exact this
    rw [hsplit] at hw
    obtain ⟨hw1, hw2⟩ := withinBuffers_append hw
    exact ⟨tokenizeFileChecked_within hw1, tokenizeFileChecked_within hw2, hsplit⟩
  · intro pre w post toks hpre hsp h
    obtain ⟨rfl, hw⟩ := tokenizeFileChecked_some h
    have hsplit : tokenizeFile (pre ++ w :: post) =
        tokenizeFile pre ++ ([] ++ tokenizeFile post) := by
      have := tokenizeLoop_separator w post (by simp [hsp]) pre [] hpre
      rw [if_neg (not_isSymbol_of_isspace hsp)] at this
      exact this
    rw [hsplit] at hw
    obtain ⟨hw1, hw2⟩ := withinBuffers_append hw
    exact ⟨tokenizeFileChecked_within hw1, tokenizeFileChecked_within hw2, hsplit⟩

/-- Witness for C18: the input `a;b` runs within the buffers and the kept
characters of its single token `ab` are those of the input in order; the brace
after `x` ends that token and is stored as a one-character token. -/
theorem tokenizeFile_accounting_witness :
    tokenizeFileChecked "a;b".data = some [⟨"ab"⟩] ∧
    ([⟨"ab"⟩] : List Token).flatMap (fun t => t.text.data) =
      ("a;b".data.takeWhile (fun c => decide (c ≠ eofChar))).filter
        (fun c => isalnum c || isSymbol c) ∧
    (∀ y ∈ ['x'], y ≠ eofChar) ∧ isSymbol '\x7d' = true ∧
    tokenizeFileChecked (['x'] ++ '\x7d' :: ['y']) = some [⟨"x"⟩, ⟨"\x7d"⟩, ⟨"y"⟩] ∧
    [⟨"x"⟩, ⟨"\x7d"⟩, ⟨"y"⟩] =
      tokenizeFile ['x'] ++ ⟨String.mk ['\x7d']⟩ :: tokenizeFile ['y'] :=
  ⟨by decide, tokenizeFile_accounting.1 "a;b".data [⟨"ab"⟩] (by decide),
    by decide, by decide, by decide,
    (tokenizeFile_accounting.2.2.1 ['x'] '\x7d' ['y'] [⟨"x"⟩, ⟨"\x7d"⟩, ⟨"y"⟩]
      (by decide) (by decide) (by decide)).2.2⟩

/-- Counterexample to C18 as stated: on the input `a;b` the character `;`
disappears without producing or ending a token; on `{` the brace is not
dropped but stored as a token; and on `a`, 0xFF, `b` the loop ends at the byte
0xFF, so that `b` is neither stored nor one of the dropped characters. -/
theorem tokenizeFile_accounting_counterexample :
    tokenizeFileChecked "a;b".data = some [⟨"ab"⟩] ∧
    (tokenizeFile "a;b".data).flatMap (fun t => t.text.data) ≠
      "a;b".data.filter (fun c => !isDiscarded c) ∧
    tokenizeFileChecked "\x7b".data = some [⟨"\x7b"⟩] ∧
    tokenizeFileChecked ['a', eofChar, 'b'] = some [⟨"a"⟩] ∧
    isDiscarded 'b' = false := by
  decide
end Task56

namespace Task7

/-! ### C19: what `parseAssignment` consumes -/

/-- C19: what `parseAssignment` consumes, in both revisions. For every token
sequence and cursor `c` it stores the text of token `c` as the Assign node's own
value, makes `VarRef(text of token c + 1)` the left child, and parses a
right-hand expression from `c + 3` only when token `c + 2` is `=` (kind
`TOKEN_ASSIGN` in the revision with kinds, text `=` in the earliest one);
otherwise the right child stays absent and the cursor ends at `c + 2`. So for a
four-token statement `t n = v` with `v` a single number or identifier and nothing
after it (as in `int x = 5`), parse then emit yields exactly the line `MOV n, v`
and the cursor advances by 4. -/
theorem parseAssignment_consumes :
    (∀ (tokens : List Token) (c : Nat),
      parseAssignment tokens c =
        if (tokenAt tokens (c + 2)).type = .TOKEN_ASSIGN then
          match parseExpression tokens (c + 3) with
          | .ok right j =>
            .ok (.node .AST_ASSIGN (tokenAt tokens c).text
              (createNode .AST_VAR_DECL (tokenAt tokens (c + 1)).text) right) j
          | r => r
        else
          .ok (.node .AST_ASSIGN (tokenAt tokens c).text
            (createNode .AST_VAR_DECL (tokenAt tokens (c + 1)).text) .null) (c + 2)) ∧
    (∀ (tokens : List Task56.Token) (c : Nat),
      Task56.parseAssignment tokens c =
        if (Task56.tokenAt tokens (c + 2)).text = "=" then
          match Task56.parseExpression tokens (c + 3) with
          | .ok right j =>
            .ok (.node .AST_ASSIGN (Task56.tokenAt tokens c).text
              (createNode .AST_VAR_DECL (Task56.tokenAt tokens (c + 1)).text) right) j
          | r => r
        else
          .ok (.node .AST_ASSIGN (Task56.tokenAt tokens c).text
            (createNode .AST_VAR_DECL (Task56.tokenAt tokens (c + 1)).text) .null) (c + 2)) ∧
    (∀ (t n v : Token), isFactorToken v →
      parseAssignment [t, n, ⟨.TOKEN_ASSIGN, "="⟩, v] 0 =
          .ok (.node .AST_ASSIGN t.text (createNode .AST_VAR_DECL n.text) (leaf v)) 4 ∧
        generateAssembly
            (.node .AST_ASSIGN t.text (createNode .AST_VAR_DECL n.text) (leaf v)) =
          .done ["MOV " ++ n.text ++ ", " ++ v.text]) ∧
    (∀ (t n v : Task56.Token),
      Task56.parseAssignment [t, n, ⟨"="⟩, v] 0 =
          .ok (.node .AST_ASSIGN t.text (createNode .AST_VAR_DECL n.text)
            (Task56.parseFactor [v] 0).1) 4 ∧
        Task56.generateAssembly
            (.node .AST_ASSIGN t.text (createNode .AST_VAR_DECL n.text)
              (Task56.parseFactor [v] 0).1) =
          .done ["MOV " ++ n.text ++ ", " ++ v.text]) ∧
    generateAssembly (.node .AST_ASSIGN "int" (createNode .AST_VAR_DECL "x")
        (createNode .AST_NUMBER "5")) = .done ["MOV x, 5"] ∧
    Task56.parseAssignment (Task56.tokenizeFile "int x = 5".data) 0 =
      .ok (.node .AST_ASSIGN "int" (createNode .AST_VAR_DECL "x")
        (createNode .AST_NUMBER "5")) 4 := by
  refine ⟨fun _ _ => rfl, fun _ _ => rfl, ?_, ?_, by decide, by decide⟩
  · intro t n v hv
    constructor
    · rw [parseAssignment_of_assign [t, n, ⟨.TOKEN_ASSIGN, "="⟩, v] 0 rfl,
        parseExpression_leaf [t, n, ⟨.TOKEN_ASSIGN, "="⟩, v] 3 hv not_isMulOp_zeroToken
          not_isAddOp_zeroToken]
      rfl
    · have hval := value_leaf v
      cases hl : leaf v with
      | null => rw [hl] at hval; cases hval
      | node vt vv vl vr =>
        rw [hl] at hval
        cases hval
        rfl
  · intro t n v
    by_cases hd : isdigit (Task56.text0 v) = true
    · have hf : Task56.parseFactor [v] 0 = (createNode .AST_NUMBER v.text, 1) := by
        simp [Task56.parseFactor, Task56.tokenAt, hd]
      have hf3 : Task56.parseFactor [t, n, ⟨"="⟩, v] 3 = (createNode .AST_NUMBER v.text, 4) := by
        simp [Task56.parseFactor, Task56.tokenAt, hd]
      rw [hf]
      constructor
      · simp only [Task56.parseAssignment, Task56.parseExpression, Task56.parseTerm, hf3]
        rfl
      · rfl
    · have hf : Task56.parseFactor [v] 0 = (createNode .AST_VAR_DECL v.text, 1) := by
        simp [Task56.parseFactor, Task56.tokenAt, hd]
      have hf3 : Task56.parseFactor [t, n, ⟨"="⟩, v] 3 =
          (createNode .AST_VAR_DECL v.text, 4) := by
        simp [Task56.parseFactor, Task56.tokenAt, hd]
      rw [hf]
      constructor
      · simp only [Task56.parseAssignment, Task56.parseExpression, Task56.parseTerm, hf3]
        rfl
      · rfl

/-- Witness for C19: the four tokens of `int x = 5` in the revision with kinds. -/
theorem parseAssignment_consumes_witness :
    parseAssignment [⟨.TOKEN_IDENTIFIER, "int"⟩, ⟨.TOKEN_IDENTIFIER, "x"⟩,
        ⟨.TOKEN_ASSIGN, "="⟩, ⟨.TOKEN_NUMBER, "5"⟩] 0 =
      .ok (.node .AST_ASSIGN "int" (createNode .AST_VAR_DECL "x")
        (leaf ⟨.TOKEN_NUMBER, "5"⟩)) 4 :=
  (parseAssignment_consumes.2.2.1 ⟨.TOKEN_IDENTIFIER, "int"⟩ ⟨.TOKEN_IDENTIFIER, "x"⟩
    ⟨.TOKEN_NUMBER, "5"⟩ (by decide)).1

end Task7

